import Mathlib

set_option maxRecDepth 200000

/-!
Verification of the dccon-exporter server against its specification.

The development shallowly embeds the two modules the claims are about:

* `src/server/src/utils.js` — pure string/number helpers
  (`extractPackageId`, `sanitizeFilename`, `formatBytes`,
  `buildArchiveFilename`);
* `src/server/src/jobQueue.js` — the in-memory job registry, the
  per-session bookkeeping, the single-worker queue and the public
  projection (`createJob`, `listJobs`, `getJob`, `getJobDownloadData`,
  `processQueue`, `runJob`, `toPublicJob`, `summariseItems`,
  `cleanupExpiredJobs`, `trimSessionJobs`, `removeJob`).

Modelling conventions:

* JS numbers are modelled as `Nat` / `Int` / `ℚ` as appropriate
  (division by 1024 and the arithmetic of `toFixed` are exact on the
  values the program manipulates, so `ℚ` is a faithful model on the
  non-`NaN`, non-overflowing range);
* timestamps (`Date.now()` / `toISOString`) are `Nat` epoch
  milliseconds, supplied as explicit parameters;
* `nanoid()` results are supplied as explicit `String` parameters,
  together with freshness hypotheses reflecting nanoid uniqueness;
* a JS `Map` is an association list in insertion order: `set` of a new
  key appends, `set` of a present key replaces in place, `delete`
  removes the key — exactly the observable behaviour of `Map`;
* byte buffers are `List Nat` (byte values);
* thrown exceptions are `Except` errors carrying the `statusCode` and
  message of the JS `Error` object;
* JS runs an `async` function body synchronously up to its first
  `await`; the model therefore executes the pre-`await` prefix of
  `runJob` inside `processQueue`, and models the resumption of the
  suspended body (the settlement of `downloadDcConPackage`) and the
  in-flight `onProgress` callbacks as separate steps of a transition
  relation.
-/

namespace DcconExporter

/-! ## Exact JS numbers

Every number the modelled code manipulates is an exactly-represented
double: naturals, and quotients whose denominator is a power of 1024
(division by 1024 only shifts the binary exponent) or 100 (`0.01` of
the progress field, which the source only ever assigns, compares and
clamps).  We therefore model such numbers as exact unnormalised
fractions; all operations the source performs on them are exact. -/

/-- An exact JS number `num / den` (`den` is positive in every value
the model constructs). -/
structure JsNum where
  num : Int
  den : Nat
deriving DecidableEq

instance : OfNat JsNum n where
  ofNat := ⟨n, 1⟩

/-- `a <= b` on exact values (cross multiplication; valid because all
constructed denominators are positive). -/
def JsNum.jsLe (a b : JsNum) : Bool := a.num * (b.den : Int) ≤ b.num * (a.den : Int)

/-- `x % 1 === 0`: the value is an integer. -/
def JsNum.isInt (a : JsNum) : Bool := a.num % (a.den : Int) = 0

/-- `Math.max` on exact values. -/
def JsNum.jsMax (a b : JsNum) : JsNum := if JsNum.jsLe a b then b else a

/-- `Math.min` on exact values. -/
def JsNum.jsMin (a b : JsNum) : JsNum := if JsNum.jsLe a b then a else b

/-! ## Characters and small helpers (utils.js) -/

/-- The whitespace class of `String.prototype.trim` and of the `\s`
regex class, restricted to the code points the program encounters
(ASCII whitespace). -/
def jsIsWs (c : Char) : Bool := c.isWhitespace

/-- `String.prototype.trim`. -/
def jsTrimList (cs : List Char) : List Char :=
  ((cs.dropWhile jsIsWs).reverse.dropWhile jsIsWs).reverse

/-- `String.prototype.trim`, on strings. -/
def jsTrim (s : String) : String := String.mk (jsTrimList s.data)

/-- ASCII decimal digit test, `[0-9]` of the source regexes. -/
def isDigitCh (c : Char) : Bool := '0' ≤ c && c ≤ '9'

/-- ASCII letter test, `[a-zA-Z]` of the fallback regex lookahead. -/
def isAsciiLetter (c : Char) : Bool :=
  ('a' ≤ c && c ≤ 'z') || ('A' ≤ c && c ≤ 'Z')

/-- Longest prefix of consecutive `[0-9]` characters (the greedy
`[0-9]+` / `[0-9]{3,}` engine primitive). -/
def digitRun : List Char → List Char
  | [] => []
  | c :: cs => if isDigitCh c then c :: digitRun cs else []

/-- Whether the character following a candidate match is an ASCII
letter (the `(?![a-zA-Z])` lookahead; end of input is not a letter). -/
def followerIsLetter : Option Char → Bool
  | none => false
  | some c => isAsciiLetter c

/-- The fallback regex `([0-9]{3,})(?![a-zA-Z])` of
`utils.js extractPackageId`, anchored at the start of `cs`, with the
backtracking semantics of the JS engine: the greedy `[0-9]{3,}` first
takes the whole digit run; if the follower is a letter it backtracks
one digit (the new follower is then a digit, hence not a letter), which
succeeds exactly when at least 3 digits remain. -/
def matchAt (cs : List Char) : Option (List Char) :=
  let run := digitRun cs
  let rest := cs.drop run.length
  if run.length < 3 then none
  else if followerIsLetter rest.head? then
    if 4 ≤ run.length then some (run.take (run.length - 1)) else none
  else some run

/-- `String.prototype.match` with a non-global regex: try `matchAt` at
every start position from the left and return the first success. -/
def fallbackScan : List Char → Option (List Char)
  | [] => none
  | c :: cs =>
    match matchAt (c :: cs) with
    | some r => some r
    | none => fallbackScan cs

/-- ASCII lower-casing, for the `/i` flag of the key=value regex. -/
def lcase (c : Char) : Char :=
  if 'A' ≤ c && c ≤ 'Z' then Char.ofNat (c.toNat + 32) else c

/-- Case-insensitive literal prefix test. -/
def startsWithCI (pat cs : List Char) : Bool :=
  decide (((cs.take pat.length).map lcase) = pat)

/-- One alternative of `(?:package_(?:idx|id)|idx|no)=([0-9]+)`,
anchored: the literal key (case-insensitively), `=`, then a nonempty
greedy digit run, which is the captured group. -/
def tryKey (pat cs : List Char) : Option (List Char) :=
  if startsWithCI pat cs then
    match cs.drop pat.length with
    | '=' :: rest =>
      match digitRun rest with
      | [] => none
      | d :: ds => some (d :: ds)
    | _ => none
  else none

/-- The query regex `/(?:package_(?:idx|id)|idx|no)=([0-9]+)/i` of
`extractPackageId`: leftmost match, alternatives tried in source
order at each position. -/
def queryScanGo : List Char → Option (List Char)
  | [] => none
  | c :: cs =>
    match tryKey (String.toList "package_idx") (c :: cs) with
    | some r => some r
    | none =>
      match tryKey (String.toList "package_id") (c :: cs) with
      | some r => some r
      | none =>
        match tryKey (String.toList "idx") (c :: cs) with
        | some r => some r
        | none =>
          match tryKey (String.toList "no") (c :: cs) with
          | some r => some r
          | none => queryScanGo cs

/-- `utils.js extractPackageId`, on the inputs on which the
`new URL(...)` resolution step throws (for example any input whose
host part would contain a space, such as plain prose): the function
then reduces to the falsy/empty guards, the key=value regex, and the
numeric fallback regex.  The WHATWG URL parser itself is outside the
shallow embedding; the claims settled against this definition are
conditioned on (and their concrete inputs chosen so that) the URL step
fails. -/
def extractPackageIdNoUrl (input : String) : Option String :=
  if input = "" then none
  else
    let t := jsTrim input
    if t = "" then none
    else
      match queryScanGo t.data with
      | some ds => some (String.mk ds)
      | none =>
        match fallbackScan t.data with
        | some ds => some (String.mk ds)
        | none => none

/-- Maximal digit runs of a string together with the character that
immediately follows each run (`none` at end of input).  The first
argument accumulates the current run in reverse. -/
def runsWithFollowers : List Char → List Char → List (List Char × Option Char)
  | cur, [] => if cur.isEmpty then [] else [(cur.reverse, none)]
  | cur, c :: cs =>
    if isDigitCh c then runsWithFollowers (c :: cur) cs
    else if cur.isEmpty then runsWithFollowers [] cs
    else (cur.reverse, some c) :: runsWithFollowers [] cs

/-- The specification's wording of the fallback: the LAST bare run of
3 or more digits that is not immediately followed by a letter
(runs are maximal digit runs). -/
def specLastBareRun (s : String) : Option String :=
  let runs := (runsWithFollowers [] s.data).filter
    (fun p => 3 ≤ p.1.length && !(followerIsLetter p.2))
  (runs.getLast?).map (fun p => String.mk p.1)

/-- The amended wording of the fallback: the FIRST position (scanning
left to right) at which the backtracking regex `([0-9]{3,})(?![a-zA-Z])`
matches, and the match found there. -/
def specFirstMatch (cs : List Char) : Option (List Char) :=
  match (List.range cs.length).find? (fun i => (matchAt (cs.drop i)).isSome) with
  | none => none
  | some i => matchAt (cs.drop i)

/-! ## formatBytes (utils.js) -/

/-- Unit labels of `formatBytes`. -/
def UNITS : List String := ["B", "KB", "MB", "GB"]

/-- The scaling loop of `formatBytes`:
`while (size >= 1024 && unitIndex < units.length - 1)`.
The fuel argument is `3 - unitIndex`, so the guard
`unitIndex < 3` is exactly `fuel > 0`.  `size /= 1024` is exact on
doubles (it only shifts the exponent), so it is modelled as the exact
fraction with denominator multiplied by 1024. -/
def scaleGo : Nat → JsNum → Nat → JsNum × Nat
  | 0, size, u => (size, u)
  | fuel + 1, size, u =>
    if JsNum.jsLe 1024 size then scaleGo fuel ⟨size.num, size.den * 1024⟩ (u + 1)
    else (size, u)

/-- Scaled size and unit index of `formatBytes bytes`. -/
def scaleBytes (b : Nat) : JsNum × Nat := scaleGo 3 ⟨b, 1⟩ 0

/-- Zero left padding of the fractional digit block. -/
def padLeftZeros (d : Nat) (s : String) : String :=
  if s.length < d then String.mk (List.replicate (d - s.length) '0') ++ s else s

/-- `Number.prototype.toFixed(d)` on an exactly represented nonnegative
value `num/den`: round half away from zero to `d` decimal places —
`floor(x*10^d + 1/2) = (2*num*10^d + den) / (2*den)` — and print with
exactly `d` fractional digits. -/
def toFixedN (d : Nat) (x : JsNum) : String :=
  let scaled := (2 * x.num.toNat * 10 ^ d + x.den) / (2 * x.den)
  toString (scaled / 10 ^ d) ++ "." ++ padLeftZeros d (toString (scaled % 10 ^ d))

/-- `utils.js formatBytes`: scale by 1024 across B/KB/MB/GB, print the
scaled value bare when it is an integer (`size % 1 === 0`), otherwise
with `toFixed(size >= 10 ? 1 : 2)`.  The `!bytes && bytes !== 0` guard
of the source never fires on a `Nat` input (it handles
`undefined`/`null`/`NaN`). -/
def formatBytes (bytes : Nat) : String :=
  let p := scaleBytes bytes
  let size := p.1
  let numStr :=
    if size.isInt then toString (size.num.toNat / size.den)
    else toFixedN (if JsNum.jsLe 10 size then 1 else 2) size
  numStr ++ " " ++ (UNITS.getD p.2 "")

/-! ## sanitizeFilename / buildArchiveFilename (utils.js) -/

/-- The characters of `FILENAME_SANITIZE_REGEX`:
`[\\/:*?"<>|\u0000-\u001f]`. -/
def isSanitizeTarget (c : Char) : Bool :=
  c = '\\' || c = '/' || c = ':' || c = '*' || c = '?' || c = '"' ||
  c = '<' || c = '>' || c = '|' || c.toNat ≤ 0x1f

/-- `.replace(/\s+/g, ' ')`: collapse every maximal whitespace run to a
single space.  The flag records whether we are inside a run. -/
def collapseWs : Bool → List Char → List Char
  | _, [] => []
  | inWs, c :: cs =>
    if c.isWhitespace then
      if inWs then collapseWs true cs else ' ' :: collapseWs true cs
    else c :: collapseWs false cs

/-- `utils.js sanitizeFilename(name, fallback)`: falsy name gives the
fallback; otherwise hostile characters become spaces, whitespace runs
collapse to single spaces, the result is trimmed, and an empty result
gives the fallback. -/
def sanitizeFilename (name fallback : String) : String :=
  if name = "" then fallback
  else
    let replaced := name.data.map (fun c => if isSanitizeTarget c then ' ' else c)
    let cleaned := jsTrim (String.mk (collapseWs false replaced))
    if cleaned = "" then fallback else cleaned

/-- `utils.js buildArchiveFilename(title, packageId)`.  Note the
source calls `sanitizeFilename(title)` with its DEFAULT fallback
`'untitled'`; the later `safeTitle || 'dccon'` alternative can only
fire if the sanitizer returned an empty string. -/
def buildArchiveFilename (title packageId : String) : String :=
  let safeTitle := sanitizeFilename title "untitled"
  let suffix := if packageId = "" then "" else "_" ++ packageId
  (if safeTitle = "" then "dccon" else safeTitle) ++ suffix ++ ".zip"

/-! ## Data model of jobQueue.js -/

/-- The four values the source ever assigns to `job.status`. -/
inductive Status
  | queued
  | processing
  | completed
  | failed
deriving DecidableEq

/-- `Buffer.prototype.toString('base64')`: the standard alphabet. -/
def base64Table : List Char :=
  String.toList "ABCDEFGHIJKLMNOPQRSTUVWXYZabcdefghijklmnopqrstuvwxyz0123456789+/"

/-- Character of a 6-bit group. -/
def b64char (n : Nat) : Char := base64Table.getD n 'A'

/-- Base64 encoding with `=` padding, three input bytes per four output
characters. -/
def base64Encode : List Nat → List Char
  | [] => []
  | [b1] =>
    let x := b1 % 256
    [b64char (x / 4), b64char (x % 4 * 16), '=', '=']
  | [b1, b2] =>
    let x := b1 % 256
    let y := b2 % 256
    [b64char (x / 4), b64char (x % 4 * 16 + y / 16), b64char (y % 16 * 4), '=']
  | b1 :: b2 :: b3 :: rest =>
    let x := b1 % 256
    let y := b2 % 256
    let z := b3 % 256
    b64char (x / 4) :: b64char (x % 4 * 16 + y / 16) ::
      b64char (y % 16 * 4 + z / 64) :: b64char (z % 64) :: base64Encode rest

/-- `Buffer.prototype.toString('base64')`, as a string. -/
def base64EncodeStr (bs : List Nat) : String := String.mk (base64Encode bs)

/-- An element of `job.items`, as built by
`dcconDownloader.downloadDcConPackage` and consumed by
`summariseItems`/`createZipBuffer`.  `buffer` and `mimeType` are
optional because `summariseItems` guards on their truthiness. -/
structure Item where
  idx : Nat
  packageIdx : Nat
  title : String
  sort : Nat
  ext : String
  path : String
  buffer : Option (List Nat)
  mimeType : Option String
  size : Nat
  resized : Bool
deriving DecidableEq

/-- An element of `job.previews` (built complete by the downloader and
copied field-by-field by `toPublicJob`). -/
structure Preview where
  idx : Nat
  title : String
  mimeType : String
  dataUrl : String
deriving DecidableEq

/-- `job.zip`: the archive payload returned by the downloader and
served by `getJobDownloadData`. -/
structure Zip where
  buffer : List Nat
  filename : String
  size : Nat
deriving DecidableEq

/-- `detail.info` of the dcinside API, passed through opaquely by the
queue; only `title` is projected (`info?.title`). -/
structure PackageInfo where
  title : Option String
deriving DecidableEq

/-- `job.options` (`{ resize }` after `normalizeResizeOption`). -/
structure JobOptions where
  resize : Option Nat
deriving DecidableEq

/-- The internal job record of `jobQueue.js createJob`, including the
fields later assigned by `runJob`.  Timestamps are epoch milliseconds. -/
structure Job where
  id : String
  sessionId : String
  url : String
  packageId : String
  options : JobOptions
  status : Status
  progress : JsNum
  stage : String
  message : String
  createdAt : Nat
  updatedAt : Nat
  startedAt : Option Nat
  completedAt : Option Nat
  packageTitle : Option String
  packageInfo : Option PackageInfo
  items : List Item
  previews : List Preview
  zip : Option Zip
  error : Option String
deriving DecidableEq

/-- An element of the `items` array of the public projection
(`summariseItems`). -/
structure PublicItem where
  idx : Nat
  sort : Nat
  title : String
  ext : String
  size : Nat
  sizeLabel : String
  mimeType : Option String
  resized : Bool
  dataUrl : Option String
deriving DecidableEq

/-- The `archive` object of the public projection. -/
structure ArchiveInfo where
  filename : String
  size : Nat
  sizeLabel : String
deriving DecidableEq

/-- The public projection returned by `toPublicJob`: note it has no
`sessionId` field and no buffer-typed field. -/
structure PublicJob where
  id : String
  url : String
  packageId : String
  options : JobOptions
  status : Status
  stage : String
  progress : JsNum
  message : String
  error : Option String
  packageTitle : Option String
  packageInfo : Option PackageInfo
  itemCount : Nat
  items : List PublicItem
  previews : List Preview
  archive : Option ArchiveInfo
  createdAt : Nat
  updatedAt : Nat
  startedAt : Option Nat
  completedAt : Option Nat
deriving DecidableEq

/-- `jobQueue.js summariseItems`, pointwise: the data URL is present
exactly when `item.buffer` and `item.mimeType` are truthy (an empty
mime string is falsy in JS). -/
def summariseItem (item : Item) : PublicItem :=
  { idx := item.idx
    sort := item.sort
    title := item.title
    ext := item.ext
    size := item.size
    sizeLabel := formatBytes item.size
    mimeType := item.mimeType
    resized := item.resized
    dataUrl :=
      match item.buffer, item.mimeType with
      | some b, some m =>
        if m = "" then none
        else some ("data:" ++ m ++ ";base64," ++ base64EncodeStr b)
      | _, _ => none }

/-- `jobQueue.js summariseItems` (`items` is always an array in the
model, so the `Array.isArray` guard is always taken). -/
def summariseItems (items : List Item) : List PublicItem :=
  items.map summariseItem

/-- `jobQueue.js toPublicJob` on a non-null job (`getJob` handles the
null case with `Option` at the call site). -/
def toPublicJob (job : Job) : PublicJob :=
  { id := job.id
    url := job.url
    packageId := job.packageId
    options := job.options
    status := job.status
    stage := job.stage
    progress := job.progress
    message := job.message
    error := job.error
    packageTitle := job.packageTitle
    packageInfo := job.packageInfo
    itemCount := job.items.length
    items := summariseItems job.items
    previews := job.previews.map (fun p =>
      { idx := p.idx, title := p.title, mimeType := p.mimeType, dataUrl := p.dataUrl })
    archive := job.zip.map (fun z =>
      { filename := z.filename, size := z.size, sizeLabel := formatBytes z.size })
    createdAt := job.createdAt
    updatedAt := job.updatedAt
    startedAt := job.startedAt
    completedAt := job.completedAt }

/-! ## The queue state -/

/-- The module-level mutable state of `jobQueue.js`: the `jobs` map,
the `queue` array, the `sessionJobs` map and the `processingJob`
marker.  Maps are association lists in insertion order. -/
structure QState where
  jobs : List (String × Job)
  queue : List String
  sessionJobs : List (String × List String)
  processingJob : Option String
deriving DecidableEq

/-- The state at module load. -/
def initState : QState := ⟨[], [], [], none⟩

/-- `Map.prototype.get`. -/
def jsGet {α : Type} (k : String) : List (String × α) → Option α
  | [] => none
  | p :: rest => if p.1 = k then some p.2 else jsGet k rest

/-- `Map.prototype.set`: replace in place when the key is present,
append otherwise. -/
def jsSet {α : Type} (k : String) (v : α) (m : List (String × α)) : List (String × α) :=
  if (jsGet k m).isSome then m.map (fun p => if p.1 = k then (k, v) else p)
  else m ++ [(k, v)]

/-- `Map.prototype.delete` (keys are unique in a JS map; on the
association lists of the model, removing every entry with the key is
the faithful image). -/
def jsDelete {α : Type} (k : String) (m : List (String × α)) : List (String × α) :=
  m.filter (fun p => p.1 ≠ k)

/-- The stored job order of a session (`getSessionOrder` without the
placeholder insertion, which is immediately overwritten by the
caller's push in the only flow that creates it). -/
def sessionOrderOf (s : QState) (sid : String) : List String :=
  (jsGet sid s.sessionJobs).getD []

/-! ## Queue operations -/

/-- `MAX_STORED_JOBS_PER_SESSION`. -/
def MAX_STORED_JOBS_PER_SESSION : Nat := 15

/-- `JOB_TTL_MS` (30 minutes). -/
def JOB_TTL_MS : Nat := 1000 * 60 * 30

/-- A thrown JS `Error` with its `statusCode` and `message`. -/
structure JsError where
  statusCode : Nat
  message : String
deriving DecidableEq

/-- The 400 error of `assertSessionId`. -/
def sessionError : JsError := ⟨400, "세션 식별자가 필요합니다."⟩

/-- The 400 error of `createJob` on a URL without a package id. -/
def invalidUrlError : JsError := ⟨400, "유효한 디시콘 URL이 아닙니다."⟩

/-- The 404 error of `getJobDownloadData` — one shared value for both
the nonexistent-job and the foreign-session case. -/
def notFoundError : JsError := ⟨404, "작업을 찾을 수 없습니다."⟩

/-- The 409 error of `getJobDownloadData`. -/
def notReadyError : JsError := ⟨409, "아직 다운로드할 수 없습니다."⟩

/-- `assertSessionId` succeeds exactly on strings with nonempty trim
(the model's session ids are strings, so only the falsy/blank checks
can fire). -/
def validSession (sid : String) : Bool := jsTrim sid ≠ ""

/-- The `sessionJobs` part of `removeJob`: drop the job from its
session's order, deleting the session entry if the order empties. -/
def removeSess (sessId jobId : String) (sj : List (String × List String)) :
    List (String × List String) :=
  match jsGet sessId sj with
  | none => sj
  | some order =>
    let order' := order.erase jobId
    if order' = [] then jsDelete sessId sj
    else jsSet sessId order' sj

/-- `jobQueue.js removeJob`: refuse to remove a missing or `processing`
job; otherwise delete it from the `jobs` map, drop it from its
session's order (deleting the session entry if the order empties), and
drop every occurrence from the pending queue. -/
def removeJob (jobId : String) (s : QState) : QState × Bool :=
  match jsGet jobId s.jobs with
  | none => (s, false)
  | some job =>
    if job.status = Status.processing then (s, false)
    else
      (⟨jsDelete jobId s.jobs, s.queue.filter (fun q => q ≠ jobId),
        removeSess job.sessionId jobId s.sessionJobs, s.processingJob⟩, true)

/-- One iteration of the `cleanupExpiredJobs` loop, on the snapshot
entry `p`: skip `processing`/`queued` jobs, remove a job whose
`updatedAt` is more than `JOB_TTL_MS` before `now`.  (The `NaN` guard
of the source cannot fire on `Nat` timestamps, and `updatedAt` is
assigned at creation so the `|| job.createdAt` alternative is dead.) -/
def cleanupStep (now : Nat) (s : QState) (p : String × Job) : QState :=
  if p.2.status = Status.processing ∨ p.2.status = Status.queued then s
  else if p.2.updatedAt + JOB_TTL_MS < now then (removeJob p.1 s).1
  else s

/-- `jobQueue.js cleanupExpiredJobs`: iterate over the entries of the
`jobs` map (insertion order; each iteration can only remove the entry
it examines, so iterating over the entry snapshot is faithful). -/
def cleanupExpiredJobs (now : Nat) (s : QState) : QState :=
  s.jobs.foldl (cleanupStep now) s

/-- The `while (order.length > MAX_STORED_JOBS_PER_SESSION)` loop of
`trimSessionJobs`, with explicit fuel.  Every successful `removeJob`
of the head shortens the session's order by one (session orders list
jobs of their own session in every reachable state), so fuel equal to
the initial order length suffices for the loop to reach its exit
condition. -/
def trimLoop (sid : String) : Nat → QState → QState
  | 0, s => s
  | fuel + 1, s =>
    match jsGet sid s.sessionJobs with
    | none => s
    | some order =>
      if MAX_STORED_JOBS_PER_SESSION < order.length then
        match order with
        | [] => s
        | oldest :: _ =>
          let r := removeJob oldest s
          if r.2 then trimLoop sid fuel r.1 else r.1
      else s

/-- `jobQueue.js trimSessionJobs`. -/
def trimSessionJobs (sid : String) (s : QState) : QState :=
  trimLoop sid (sessionOrderOf s sid).length s

/-- The synchronous prefix of `runJob` (its body up to the first
`await`): mark the job `processing`, stage `initializing`, progress
`0.01`, and stamp `startedAt`/`updatedAt`.  `downloadDcConPackage`
suspends at its own first statement, so no further field changes
happen synchronously. -/
def runJobStart (now : Nat) (j : Job) : Job :=
  { j with
    status := Status.processing
    stage := "initializing"
    progress := ⟨1, 100⟩
    message := "작업을 준비하는 중입니다."
    startedAt := some now
    updatedAt := now }

/-- `jobQueue.js processQueue`, including the synchronous prefix of
`runJob` on the picked job: a no-op when a job is already running or
the queue is empty; otherwise shift the queue head and, if it is a
live `queued` job, set the `processingJob` marker and run the job's
synchronous prefix.  (A dead or non-queued head is dropped and the
deferred `setImmediate(processQueue)` retry is a later step of the
transition relation.) -/
def processQueueStep (now : Nat) (s : QState) : QState :=
  if s.processingJob.isSome then s
  else
    match s.queue with
    | [] => s
    | nextJobId :: rest =>
      let s1 : QState := ⟨s.jobs, rest, s.sessionJobs, s.processingJob⟩
      match jsGet nextJobId s1.jobs with
      | none => s1
      | some job =>
        if job.status ≠ Status.queued then s1
        else
          ⟨s1.jobs.map (fun p => if p.1 = nextJobId then (p.1, runJobStart now p.2) else p),
            s1.queue, s1.sessionJobs, some nextJobId⟩

/-- `normalizeResizeOption`: a missing or non-positive value is
dropped; otherwise round half up and clamp into `[16, 512]`.
(`Number(...)` of a non-finite input yields `null` in the source; the
model's inputs are exact numbers.) -/
def normalizeResizeOption (value : Option JsNum) : Option Nat :=
  match value with
  | none => none
  | some q =>
    if q.num ≤ 0 then none
    else
      let rounded := (2 * q.num.toNat + q.den) / (2 * q.den)
      some (min 512 (max 16 rounded))

/-- The job record `createJob` builds (with the session id and url
already trimmed and the package id already extracted). -/
def newJobRecord (now : Nat) (newId turl vsid packageId : String)
    (resize : Option JsNum) : Job :=
  { id := newId
    sessionId := vsid
    url := turl
    packageId := packageId
    options := ⟨normalizeResizeOption resize⟩
    status := Status.queued
    progress := 0
    stage := "queued"
    message := "다운로드 대기 중"
    createdAt := now
    updatedAt := now
    startedAt := none
    completedAt := none
    packageTitle := none
    packageInfo := none
    items := []
    previews := []
    zip := none
    error := none }

/-- The state changes of a successful `createJob` up to (and
excluding) the final `processQueue()` call: TTL cleanup, registration
of the job in the `jobs` map, push on the session's order, session
trim, and push on the pending queue. -/
def coreBuild (now : Nat) (newId vsid : String) (job : Job) (s : QState) : QState :=
  let s1 := cleanupExpiredJobs now s
  let s2 : QState := ⟨jsSet newId job s1.jobs, s1.queue, s1.sessionJobs, s1.processingJob⟩
  let s3 : QState :=
    ⟨s2.jobs, s2.queue, jsSet vsid (sessionOrderOf s2 vsid ++ [newId]) s2.sessionJobs,
      s2.processingJob⟩
  let s4 := trimSessionJobs vsid s3
  ⟨s4.jobs, s4.queue ++ [newId], s4.sessionJobs, s4.processingJob⟩

/-- `jobQueue.js createJob` up to (and excluding) the final
`processQueue()` call: validate the session, then perform the state
changes of `coreBuild` with the job record of `newJobRecord`.
`newId` is the `nanoid()` result and `now` the clock; `pid` is the
result of `extractPackageId(url.trim())` (the URL-resolution step of
the extractor lives outside the pure model, so the extraction result
is a parameter here; its pure fallback path is modelled by
`extractPackageIdNoUrl`). -/
def createJobCore (now : Nat) (newId url sid : String) (pid : Option String)
    (resize : Option JsNum) (s : QState) : Except JsError (QState × Job) :=
  if validSession sid then
    match pid with
    | none => Except.error invalidUrlError
    | some packageId =>
      let job := newJobRecord now newId (jsTrim url) (jsTrim sid) packageId resize
      Except.ok (coreBuild now newId (jsTrim sid) job s, job)
  else Except.error sessionError

/-- `jobQueue.js createJob`: the registration above, the synchronous
part of `processQueue`, and the projection of the (live) job object
the source returns. -/
def createJob (now : Nat) (newId url sid : String) (pid : Option String)
    (resize : Option JsNum) (s : QState) : Except JsError (QState × PublicJob) :=
  match createJobCore now newId url sid pid resize s with
  | Except.error e => Except.error e
  | Except.ok (s5, job) =>
    let s6 := processQueueStep now s5
    Except.ok (s6, toPublicJob ((jsGet newId s6.jobs).getD job))

/-- The resumption value of the `await downloadDcConPackage(...)` in
`runJob`. -/
structure DownloadResult where
  info : Option PackageInfo
  items : List Item
  previews : List Preview
  zip : Zip
deriving DecidableEq

/-- The field updates the continuation of `runJob` past its `await`
performs on the job: on success store the download result and mark
`completed`; on failure mark `failed` with the error message; in both
cases stamp `updatedAt`. -/
def settleApply (now : Nat) (res : Except String DownloadResult) (j : Job) : Job :=
  match res with
  | Except.ok r =>
    { j with
      packageTitle := (r.info.map PackageInfo.title).getD none
      packageInfo := r.info
      items := r.items
      previews := r.previews
      zip := some r.zip
      status := Status.completed
      stage := "completed"
      progress := 1
      message := "다운로드가 완료되었습니다."
      completedAt := some now
      updatedAt := now }
  | Except.error msg =>
    { j with
      status := Status.failed
      stage := "failed"
      error := some msg
      message := msg
      updatedAt := now }

/-- The settlement of the in-flight download: `settleApply` on the
running job, then the `.finally` of `processQueue` resets
`processingJob` to `null`.  (All of this runs as consecutive
microtasks, so no HTTP-driven operation interleaves; the deferred
`setImmediate(processQueue)` is a separate step.) -/
def settleJob (now : Nat) (res : Except String DownloadResult) (s : QState) : QState :=
  match s.processingJob with
  | none => s
  | some id =>
    ⟨s.jobs.map (fun p => if p.1 = id then (p.1, settleApply now res p.2) else p),
      s.queue, s.sessionJobs, none⟩

/-- The field updates of an `onProgress` callback (`runJob` clamps the
reported progress into `[0, 1]` and stamps `updatedAt`). -/
def progressApply (now : Nat) (stage msg : String) (p : JsNum) (j : Job) : Job :=
  { j with
    stage := stage
    progress := JsNum.jsMin 1 (JsNum.jsMax 0 p)
    message := msg
    updatedAt := now }

/-- An `onProgress` callback of the running job. -/
def applyProgress (now : Nat) (stage msg : String) (p : JsNum) (s : QState) : QState :=
  match s.processingJob with
  | none => s
  | some id =>
    ⟨s.jobs.map (fun q => if q.1 = id then (q.1, progressApply now stage msg p q.2) else q),
      s.queue, s.sessionJobs, s.processingJob⟩

/-- The visible-jobs loop of `listJobs`: projections of the live jobs
of the order, and the compacted order with dead ids spliced out. -/
def listGo (s1 : QState) : List String → List PublicJob × List String
  | [] => ([], [])
  | jid :: rest =>
    match jsGet jid s1.jobs with
    | some job =>
      let r := listGo s1 rest
      (toPublicJob job :: r.1, jid :: r.2)
    | none => listGo s1 rest

/-- `jobQueue.js listJobs`: validate the session, clean up, project
the session's live jobs in order, and write back the compacted order
(deleting the session entry when nothing remains). -/
def listJobs (now : Nat) (sid : String) (s : QState) :
    Except JsError (QState × List PublicJob) :=
  if validSession sid then
    let vsid := jsTrim sid
    let s1 := cleanupExpiredJobs now s
    match jsGet vsid s1.sessionJobs with
    | none => Except.ok (s1, [])
    | some order =>
      if order.isEmpty then Except.ok (s1, [])
      else
        let r := listGo s1 order
        let s2 : QState :=
          if r.2.isEmpty then ⟨s1.jobs, s1.queue, jsDelete vsid s1.sessionJobs, s1.processingJob⟩
          else ⟨s1.jobs, s1.queue, jsSet vsid r.2 s1.sessionJobs, s1.processingJob⟩
        Except.ok (s2, r.1)
  else Except.error sessionError

/-- `jobQueue.js getJob`: `null` both for a missing job and for a job
of another session. -/
def getJob (now : Nat) (sid jid : String) (s : QState) :
    Except JsError (QState × Option PublicJob) :=
  if validSession sid then
    let vsid := jsTrim sid
    let s1 := cleanupExpiredJobs now s
    match jsGet jid s1.jobs with
    | none => Except.ok (s1, none)
    | some job =>
      if job.sessionId ≠ vsid then Except.ok (s1, none)
      else Except.ok (s1, some (toPublicJob job))
  else Except.error sessionError

/-- `jobQueue.js getJobDownloadData`.  The state component is the
post-call registry state (the session assertion throws before the
cleanup; every other outcome leaves exactly the cleaned state). -/
def getJobDownloadData (now : Nat) (sid jid : String) (s : QState) :
    QState × Except JsError Zip :=
  if validSession sid then
    let vsid := jsTrim sid
    let s1 := cleanupExpiredJobs now s
    match jsGet jid s1.jobs with
    | none => (s1, Except.error notFoundError)
    | some job =>
      if job.sessionId ≠ vsid then (s1, Except.error notFoundError)
      else if job.status ≠ Status.completed then (s1, Except.error notReadyError)
      else
        match job.zip with
        | none => (s1, Except.error notReadyError)
        | some z => (s1, Except.ok z)
  else (s, Except.error sessionError)

/-! ## The transition relation

One step is one atomically-executed block of the single-threaded event
loop: an HTTP-driven queue operation (each runs to completion,
including the synchronous prefix of `runJob` reached through
`processQueue`), a deferred `setImmediate(processQueue)` retry, an
`onProgress` callback of the in-flight download, or the settlement of
the in-flight download (the `runJob` continuation and the `.finally`
that clears the marker, which run as consecutive microtasks). -/

/-- Freshness of a `nanoid()`: the generated id collides with nothing
retained in the state. -/
def FreshId (newId : String) (s : QState) : Prop :=
  jsGet newId s.jobs = none ∧
  (∀ p ∈ s.sessionJobs, newId ∉ p.2) ∧
  newId ∉ s.queue

instance (newId : String) (s : QState) : Decidable (FreshId newId s) := by
  unfold FreshId; infer_instance

/-- One event-loop step of the queue service. -/
inductive QStep : QState → QState → Prop
  | create (now : Nat) (newId url sid : String) (pid : Option String)
      (resize : Option JsNum) (s s' : QState) (pj : PublicJob)
      (hfresh : FreshId newId s)
      (hok : createJob now newId url sid pid resize s = Except.ok (s', pj)) :
      QStep s s'
  | list (now : Nat) (sid : String) (s s' : QState) (out : List PublicJob)
      (hok : listJobs now sid s = Except.ok (s', out)) :
      QStep s s'
  | get (now : Nat) (sid jid : String) (s s' : QState) (out : Option PublicJob)
      (hok : getJob now sid jid s = Except.ok (s', out)) :
      QStep s s'
  | download (now : Nat) (sid jid : String) (s : QState) :
      QStep s (getJobDownloadData now sid jid s).1
  | wake (now : Nat) (s : QState) :
      QStep s (processQueueStep now s)
  | progress (now : Nat) (stage msg : String) (p : JsNum) (s : QState) :
      QStep s (applyProgress now stage msg p s)
  | settle (now : Nat) (res : Except String DownloadResult) (s : QState)
      (hbusy : s.processingJob.isSome) :
      QStep s (settleJob now res s)

/-- The states the service can reach from module load. -/
inductive Reachable : QState → Prop
  | init : Reachable initState
  | step {s s' : QState} : Reachable s → QStep s s' → Reachable s'

/-! ## Concrete scenarios used by the counterexamples and witnesses -/

/-- A single `createJob` against the freshly loaded module (idle
worker, empty pending queue). -/
def oneCreateRun : Except JsError (QState × PublicJob) :=
  createJob 0 "job-a" "https://dccon.dcinside.com/hot#123456" "sess-a" (some "123456") none
    initState

/-- The observable part of `oneCreateRun`'s answer. -/
def oneCreateObs : Option (Status × JsNum) :=
  match oneCreateRun with
  | Except.ok (_, pj) => some (pj.status, pj.progress)
  | Except.error _ => none

/-- The registration part of the same call. -/
def oneCreateCore : Except JsError (QState × Job) :=
  createJobCore 0 "job-a" "https://dccon.dcinside.com/hot#123456" "sess-a" (some "123456") none
    initState

/-- Its pre-`processQueue` state. -/
def oneCreateCoreState : QState :=
  match oneCreateCore with
  | Except.ok r => r.1
  | Except.error _ => initState

/-- Its registered job record. -/
def oneCreateCoreJob : Job :=
  match oneCreateCore with
  | Except.ok r => r.2
  | Except.error _ => newJobRecord 0 "job-a" "" "" "" none

/-- The post-call state of `oneCreateRun`. -/
def oneCreateState : QState :=
  match oneCreateRun with
  | Except.ok r => r.1
  | Except.error _ => initState

/-- The projection `oneCreateRun` answers with. -/
def oneCreatePub : PublicJob :=
  match oneCreateRun with
  | Except.ok r => r.2
  | Except.error _ => toPublicJob (newJobRecord 0 "job-a" "" "" "" none)

/-- The job record stored for `"job-a"` after `oneCreateRun`: the
freshly created record with the synchronous prefix of `runJob` already
applied (the idle worker picked it up inside `createJob`). -/
def oneCreateStoredJob : Job :=
  runJobStart 0
    (newJobRecord 0 "job-a" "https://dccon.dcinside.com/hot#123456" "sess-a" "123456" none)

/-- Sixteen distinct `nanoid()` results. -/
def sixteenIds : List String :=
  ["j01", "j02", "j03", "j04", "j05", "j06", "j07", "j08",
   "j09", "j10", "j11", "j12", "j13", "j14", "j15", "j16"]

/-- The state after one session submits sixteen jobs in a row at time
0: the first is picked up at once and is still `processing` when the
later ones arrive. -/
def sixteenCreateState : QState :=
  sixteenIds.foldl
    (fun s id =>
      match createJob 0 id "url#123456" "sess-a" (some "123456") none s with
      | Except.ok r => r.1
      | Except.error _ => s)
    initState

/-- The state after the first fifteen of those submissions. -/
def fifteenCreateState : QState :=
  (sixteenIds.take 15).foldl
    (fun s id =>
      match createJob 0 id "url#123456" "sess-a" (some "123456") none s with
      | Except.ok r => r.1
      | Except.error _ => s)
    initState

/-- The observable effect of the sixteenth submission on the session's
retained-job count. -/
def sixteenthCreateCount : Option Nat :=
  match createJob 0 "j16" "url#123456" "sess-a" (some "123456") none fifteenCreateState with
  | Except.ok r => some (sessionOrderOf r.1 "sess-a").length
  | Except.error _ => none

/-- A job finished half an hour ago (relative to `expiredNow`). -/
def expiredDoneJob : Job :=
  { newJobRecord 0 "old-1" "u" "sess-a" "123456" none with
    status := Status.completed
    updatedAt := 0 }

/-- A job still waiting, equally old. -/
def oldQueuedJob : Job :=
  { newJobRecord 0 "old-2" "u" "sess-a" "123456" none with
    updatedAt := 0 }

/-- A registry holding both. -/
def expiredState : QState :=
  ⟨[("old-1", expiredDoneJob), ("old-2", oldQueuedJob)], ["old-2"],
    [("sess-a", ["old-1", "old-2"])], none⟩

/-- A time strictly more than the TTL after their `updatedAt`. -/
def expiredNow : Nat := JOB_TTL_MS + 1

/-- The transition multiple jobs statuses may take in one event-loop
step: unchanged, picked up (`queued → processing`), or settled
(`processing → completed/failed`). -/
def StatusStepOk (a b : Status) : Prop :=
  a = b ∨ (a = Status.queued ∧ b = Status.processing) ∨
    (a = Status.processing ∧ (b = Status.completed ∨ b = Status.failed))

instance (a b : Status) : Decidable (StatusStepOk a b) := by
  unfold StatusStepOk; infer_instance

/-- Number of `processing` entries in the registry. -/
def countProcessing (s : QState) : Nat :=
  (s.jobs.filter (fun p => decide ((p.2).status = Status.processing))).length

/-- Well-formedness used by several claims, true in every reachable
state: every job is stored under its own id. -/
def StoredUnderOwnId (s : QState) : Prop :=
  ∀ p ∈ s.jobs, (p.2).id = p.1

instance (s : QState) : Decidable (StoredUnderOwnId s) := by
  unfold StoredUnderOwnId; infer_instance

/-- Well-formedness used by several claims, true in every reachable
state: the keys of the `jobs` map are distinct. -/
def JobsKeysNodup (s : QState) : Prop :=
  (s.jobs.map Prod.fst).Nodup

instance (s : QState) : Decidable (JobsKeysNodup s) := by
  unfold JobsKeysNodup; infer_instance

/-- Well-formedness used by the eviction claim, true in every
reachable state: every live job listed in a session's order belongs to
that session. -/
def SessionConsistent (s : QState) : Prop :=
  ∀ p ∈ s.sessionJobs, ∀ id ∈ p.2, ∀ j, jsGet id s.jobs = some j → j.sessionId = p.1

instance (s : QState) : Decidable (SessionConsistent s) := by
  unfold SessionConsistent
  have : ∀ (p : String × List String), Decidable (∀ id ∈ p.2, ∀ j, jsGet id s.jobs = some j → j.sessionId = p.1) := by
    intro p; infer_instance
  infer_instance

/-- The master invariant of the queue service, established below for
every reachable state: the registry keys are distinct, every job is
stored under its own id, session orders only list jobs of their own
session, every `processing` job is the one the `processingJob` marker
names, and the marker always names a live `processing` job. -/
def FullInv (s : QState) : Prop :=
  JobsKeysNodup s ∧ StoredUnderOwnId s ∧ SessionConsistent s ∧
  (∀ p ∈ s.jobs, (p.2).status = Status.processing → s.processingJob = some p.1) ∧
  (∀ m, s.processingJob = some m →
    ∃ j, jsGet m s.jobs = some j ∧ j.status = Status.processing)

/-- A fully populated downloader item (used to exercise the data-URL
branch of `summariseItems`). -/
def sampleItemFull : Item :=
  ⟨0, 7, "smile", 1, "png", "p0", some [1, 2, 3], some "image/png", 3, false⟩

/-- A downloader item with no buffer (data-URL must be absent). -/
def sampleItemNoBuffer : Item :=
  ⟨0, 7, "smile", 1, "png", "p0", none, some "image/png", 3, false⟩

/-! # Theorems -/

/-! ## Helper lemmas about the fallback regex (C7) -/

theorem fallbackScan_eq_specFirstMatch (cs : List Char) :
    fallbackScan cs = specFirstMatch cs := by
  induction cs with
  | nil => rfl
  | cons c cs ih =>
    unfold specFirstMatch
    rw [List.length_cons, List.range_succ_eq_map]
    cases hm : matchAt (c :: cs) with
    | some r =>
      have hfind :
          List.find? (fun i => (matchAt (List.drop i (c :: cs))).isSome)
            (0 :: List.map Nat.succ (List.range cs.length)) = some 0 := by
        rw [List.find?_cons]
        simp [hm]
      rw [hfind]
      simp [fallbackScan, hm]
    | none =>
      have hfind :
          List.find? (fun i => (matchAt (List.drop i (c :: cs))).isSome)
            (0 :: List.map Nat.succ (List.range cs.length)) =
          List.find? (fun i => (matchAt (List.drop i (c :: cs))).isSome)
            (List.map Nat.succ (List.range cs.length)) := by
        rw [List.find?_cons]
        simp [hm]
      rw [hfind, List.find?_map]
      have hcomp :
          ((fun i => (matchAt ((c :: cs).drop i)).isSome) ∘ Nat.succ) =
            (fun i => (matchAt (cs.drop i)).isSome) := rfl
      rw [hcomp]
      have : fallbackScan (c :: cs) = fallbackScan cs := by
        simp [fallbackScan, hm]
      rw [this, ih]
      unfold specFirstMatch
      cases hf : (List.range cs.length).find? (fun i => (matchAt (cs.drop i)).isSome) with
      | none => simp
      | some i => simp

/-! ## Helper lemma about the formatBytes scaling loop (C8) -/

theorem scaleGo_spec (fuel : Nat) (x : JsNum) (u : Nat) :
    (scaleGo fuel x u).1.num = x.num ∧
    (scaleGo fuel x u).1.den = x.den * 1024 ^ ((scaleGo fuel x u).2 - u) ∧
    u ≤ (scaleGo fuel x u).2 ∧
    (scaleGo fuel x u).2 ≤ u + fuel ∧
    (JsNum.jsLe 1024 (scaleGo fuel x u).1 = false ∨ (scaleGo fuel x u).2 = u + fuel) := by
  induction fuel generalizing x u with
  | zero =>
    refine ⟨rfl, by simp [scaleGo], Nat.le_refl u, Nat.le_refl u, Or.inr rfl⟩
  | succ n ih =>
    by_cases h : JsNum.jsLe 1024 x
    · have hstep : scaleGo (n + 1) x u = scaleGo n ⟨x.num, x.den * 1024⟩ (u + 1) := by
        simp [scaleGo, h]
      obtain ⟨h1, h2, h3, h4, h5⟩ := ih ⟨x.num, x.den * 1024⟩ (u + 1)
      rw [hstep]
      refine ⟨h1, ?_, Nat.le_trans (Nat.le_succ u) h3, by omega, ?_⟩
      · rw [h2]
        have hd : (scaleGo n ⟨x.num, x.den * 1024⟩ (u + 1)).2 - u =
            ((scaleGo n ⟨x.num, x.den * 1024⟩ (u + 1)).2 - (u + 1)) + 1 := by omega
        rw [hd, pow_succ]
        ring
      · cases h5 with
        | inl h5 => exact Or.inl h5
        | inr h5 => exact Or.inr (by omega)
    · have hstep : scaleGo (n + 1) x u = (x, u) := by
        simp [scaleGo, h]
      rw [hstep]
      exact ⟨rfl, by simp, Nat.le_refl u, by omega,
        Or.inl (by simpa using h)⟩

/-! ## Map lemmas -/

section MapLemmas

variable {α : Type}

theorem jsGet_mem {k : String} {v : α} :
    ∀ {m : List (String × α)}, jsGet k m = some v → (k, v) ∈ m := by
  intro m
  induction m with
  | nil => intro h; cases h
  | cons p t ih =>
    intro h
    unfold jsGet at h
    by_cases hp : p.1 = k
    · rw [if_pos hp] at h
      exact List.mem_cons.mpr (Or.inl (by rw [← hp, ← Option.some.inj h]))
    · rw [if_neg hp] at h
      exact List.mem_cons_of_mem p (ih h)

theorem jsGet_none_not_mem_keys {k : String} :
    ∀ {m : List (String × α)}, jsGet k m = none → k ∉ m.map Prod.fst := by
  intro m
  induction m with
  | nil => intro _ h; cases h
  | cons p t ih =>
    intro h hmem
    unfold jsGet at h
    by_cases hp : p.1 = k
    · rw [if_pos hp] at h; cases h
    · rw [if_neg hp] at h
      rcases List.mem_cons.mp hmem with h1 | h1
      · exact hp h1.symm
      · exact ih h h1

theorem jsGet_of_mem_nodup {k : String} {v : α} :
    ∀ {m : List (String × α)}, (m.map Prod.fst).Nodup → (k, v) ∈ m →
      jsGet k m = some v := by
  intro m
  induction m with
  | nil => intro _ h; cases h
  | cons p t ih =>
    intro hn hmem
    rw [List.map_cons] at hn
    have hn' := List.nodup_cons.mp hn
    rcases List.mem_cons.mp hmem with h1 | h1
    · rw [← h1]
      unfold jsGet
      rw [if_pos rfl]
    · unfold jsGet
      by_cases hp : p.1 = k
      · exfalso
        have : k ∈ t.map Prod.fst := List.mem_map.mpr ⟨(k, v), h1, rfl⟩
        exact hn'.1 (hp ▸ this)
      · rw [if_neg hp]
        exact ih hn'.2 h1

theorem jsGet_jsDelete (k q : String) :
    ∀ (m : List (String × α)),
      jsGet q (jsDelete k m) = if q = k then none else jsGet q m := by
  intro m
  induction m with
  | nil => by_cases h : q = k <;> simp [jsDelete, jsGet, h]
  | cons p t ih =>
    unfold jsDelete at ih ⊢
    by_cases hpk : p.1 = k
    · rw [List.filter_cons_of_neg (by simp [hpk])]
      rw [ih]
      by_cases hqk : q = k
      · simp [hqk]
      · have : p.1 ≠ q := fun hc => hqk (by rw [← hc, hpk])
        simp [hqk, jsGet, this]
    · rw [List.filter_cons_of_pos (by simp [hpk])]
      unfold jsGet
      by_cases hpq : p.1 = q
      · have : ¬ q = k := fun hc => hpk (by rw [hpq, hc])
        simp [hpq, this]
      · rw [if_neg hpq, if_neg hpq, ih]

/-- Lookup of the replaced key in the replace-in-place image (the
present-key branch of `jsSet`). -/
theorem jsGet_replace_self (k : String) (v : α) :
    ∀ (m : List (String × α)),
      jsGet k (m.map (fun p => if p.1 = k then (k, v) else p)) =
        (jsGet k m).map (fun _ => v) := by
  intro m
  induction m with
  | nil => simp [jsGet]
  | cons p t ih =>
    simp only [List.map_cons]
    by_cases hpk : p.1 = k
    · rw [if_pos hpk]
      unfold jsGet
      dsimp only
      rw [if_pos rfl, if_pos hpk]
      rfl
    · rw [if_neg hpk]
      unfold jsGet
      rw [if_neg hpk, if_neg hpk, ih]

/-- Lookup of another key in the replace-in-place image. -/
theorem jsGet_replace_other {q k : String} (h : q ≠ k) (v : α) :
    ∀ (m : List (String × α)),
      jsGet q (m.map (fun p => if p.1 = k then (k, v) else p)) = jsGet q m := by
  intro m
  induction m with
  | nil => rfl
  | cons p t ih =>
    simp only [List.map_cons]
    by_cases hpk : p.1 = k
    · rw [if_pos hpk]
      unfold jsGet
      dsimp only
      rw [if_neg (fun hc : k = q => h hc.symm),
        if_neg (fun hc : p.1 = q => h (by rw [← hc, hpk])), ih]
    · rw [if_neg hpk]
      unfold jsGet
      by_cases hpq : p.1 = q
      · rw [if_pos hpq, if_pos hpq]
      · rw [if_neg hpq, if_neg hpq, ih]

/-- Lookup past an appended fresh entry (the absent-key branch of
`jsSet`). -/
theorem jsGet_append_single (k q : String) (v : α) :
    ∀ (m : List (String × α)),
      jsGet q (m ++ [(k, v)]) =
        match jsGet q m with
        | some w => some w
        | none => if k = q then some v else none := by
  intro m
  induction m with
  | nil => simp [jsGet]
  | cons p t ih =>
    rw [List.cons_append]
    unfold jsGet
    by_cases hpq : p.1 = q
    · rw [if_pos hpq, if_pos hpq]
    · rw [if_neg hpq, if_neg hpq, ih]

theorem jsGet_jsSet_self (k : String) (v : α) (m : List (String × α)) :
    jsGet k (jsSet k v m) = some v := by
  unfold jsSet
  split
  · next hsome =>
    rw [jsGet_replace_self]
    cases h : jsGet k m with
    | none => rw [h] at hsome; cases hsome
    | some w => rfl
  · rw [jsGet_append_single]
    cases h : jsGet k m with
    | none => simp
    | some w =>
      next hnone =>
      rw [h] at hnone
      exact absurd rfl hnone

theorem jsGet_jsSet_other {q k : String} (h : q ≠ k) (v : α)
    (m : List (String × α)) : jsGet q (jsSet k v m) = jsGet q m := by
  unfold jsSet
  split
  · rw [jsGet_replace_other h]
  · rw [jsGet_append_single]
    cases hq : jsGet q m with
    | some w => rfl
    | none => rw [if_neg (fun hc : k = q => h hc.symm)]

theorem replace_keys (k : String) (v : α) :
    ∀ (m : List (String × α)),
      (m.map (fun p => if p.1 = k then (k, v) else p)).map Prod.fst = m.map Prod.fst := by
  intro m
  induction m with
  | nil => rfl
  | cons p t ih =>
    simp only [List.map_cons]
    have hhead : ((if p.1 = k then (k, v) else p) : String × α).1 = p.1 := by
      by_cases hp : p.1 = k
      · rw [if_pos hp, hp]
      · rw [if_neg hp]
    rw [hhead, ih]

theorem jsSet_keys_nodup {k : String} {m : List (String × α)} (v : α)
    (hn : (m.map Prod.fst).Nodup) : ((jsSet k v m).map Prod.fst).Nodup := by
  unfold jsSet
  split
  · rw [replace_keys]
    exact hn
  · next hnone =>
    have hk : jsGet k m = none := by
      cases hl : jsGet k m with
      | none => rfl
      | some j => exact absurd (by rw [hl]; rfl) hnone
    have : k ∉ m.map Prod.fst := jsGet_none_not_mem_keys hk
    simp [List.nodup_append, hn, this]

theorem jsDelete_keys_sublist (k : String) (m : List (String × α)) :
    ((jsDelete k m).map Prod.fst).Sublist (m.map Prod.fst) :=
  (List.filter_sublist m).map Prod.fst

theorem jsDelete_mem {k : String} {p : String × α} {m : List (String × α)}
    (h : p ∈ jsDelete k m) : p ∈ m :=
  List.mem_of_mem_filter h

/-- Lookup through the targeted-update image used by
`processQueue`/`runJob`/`onProgress`. -/
theorem jsGet_update (target q : String) (f : α → α) :
    ∀ (m : List (String × α)),
      jsGet q (m.map (fun p => if p.1 = target then (p.1, f p.2) else p)) =
        if q = target then (jsGet q m).map f else jsGet q m := by
  intro m
  induction m with
  | nil => by_cases h : q = target <;> simp [jsGet, h]
  | cons p t ih =>
    simp only [List.map_cons]
    by_cases hpt : p.1 = target
    · rw [if_pos hpt]
      unfold jsGet
      dsimp only
      by_cases hpq : p.1 = q
      · rw [if_pos hpq, if_pos (by rw [← hpq, hpt] : q = target), if_pos hpq]
        rfl
      · rw [if_neg hpq, ih]
        by_cases hqt : q = target
        · rw [if_pos hqt, if_pos hqt]
          unfold jsGet
          rw [if_neg hpq]
        · rw [if_neg hqt, if_neg hqt]
          unfold jsGet
          rw [if_neg hpq]
    · rw [if_neg hpt]
      unfold jsGet
      by_cases hpq : p.1 = q
      · rw [if_pos hpq, if_pos hpq]
        by_cases hqt : q = target
        · exact absurd (by rw [hpq, hqt]) hpt
        · rw [if_neg hqt]
      · rw [if_neg hpq, if_neg hpq, ih]

theorem update_keys (target : String) (f : α → α) (m : List (String × α)) :
    (m.map (fun p => if p.1 = target then (p.1, f p.2) else p)).map Prod.fst =
      m.map Prod.fst := by
  induction m with
  | nil => rfl
  | cons p t ih =>
    simp only [List.map_cons]
    have hhead : ((if p.1 = target then (p.1, f p.2) else p) : String × α).1 = p.1 := by
      by_cases hp : p.1 = target
      · rw [if_pos hp]
      · rw [if_neg hp]
    rw [hhead, ih]

end MapLemmas

/-! ## removeJob lemmas -/

theorem removeJob_of_none {jid : String} {s : QState} (h : jsGet jid s.jobs = none) :
    removeJob jid s = (s, false) := by
  unfold removeJob
  rw [h]

theorem removeJob_of_processing {jid : String} {s : QState} {j : Job}
    (h : jsGet jid s.jobs = some j) (hst : j.status = Status.processing) :
    removeJob jid s = (s, false) := by
  unfold removeJob
  rw [h]
  dsimp only
  rw [if_pos hst]

theorem removeJob_of_removable {jid : String} {s : QState} {j : Job}
    (h : jsGet jid s.jobs = some j) (hst : j.status ≠ Status.processing) :
    removeJob jid s =
      (⟨jsDelete jid s.jobs, s.queue.filter (fun q => q ≠ jid),
        removeSess j.sessionId jid s.sessionJobs, s.processingJob⟩, true) := by
  unfold removeJob
  rw [h]
  dsimp only
  rw [if_neg hst]

theorem removeJob_marker (jid : String) (s : QState) :
    ((removeJob jid s).1).processingJob = s.processingJob := by
  cases h : jsGet jid s.jobs with
  | none => rw [removeJob_of_none h]
  | some j =>
    by_cases hst : j.status = Status.processing
    · rw [removeJob_of_processing h hst]
    · rw [removeJob_of_removable h hst]

theorem removeJob_lookup_other {id jid : String} (hne : id ≠ jid) (s : QState) :
    jsGet id ((removeJob jid s).1).jobs = jsGet id s.jobs := by
  cases h : jsGet jid s.jobs with
  | none => rw [removeJob_of_none h]
  | some j =>
    by_cases hst : j.status = Status.processing
    · rw [removeJob_of_processing h hst]
    · rw [removeJob_of_removable h hst]
      dsimp only
      rw [jsGet_jsDelete, if_neg hne]

theorem removeJob_lookup_cases (id jid : String) (s : QState) :
    jsGet id ((removeJob jid s).1).jobs = jsGet id s.jobs ∨
      jsGet id ((removeJob jid s).1).jobs = none := by
  by_cases hne : id = jid
  · subst hne
    cases h : jsGet id s.jobs with
    | none => left; rw [removeJob_of_none h]; exact h
    | some j =>
      by_cases hst : j.status = Status.processing
      · left; rw [removeJob_of_processing h hst]; exact h
      · right
        rw [removeJob_of_removable h hst]
        dsimp only
        rw [jsGet_jsDelete, if_pos rfl]
  · left; exact removeJob_lookup_other hne s

theorem removeJob_lookup_none {id jid : String} {s : QState}
    (h : jsGet id s.jobs = none) : jsGet id ((removeJob jid s).1).jobs = none := by
  rcases removeJob_lookup_cases id jid s with hc | hc
  · rw [hc, h]
  · exact hc

theorem removeJob_keeps_processing {id jid : String} {s : QState} {j : Job}
    (h : jsGet id s.jobs = some j) (hp : j.status = Status.processing) :
    jsGet id ((removeJob jid s).1).jobs = some j := by
  by_cases hne : id = jid
  · subst hne
    rw [removeJob_of_processing h hp, h]
  · rw [removeJob_lookup_other hne, h]

theorem removeJob_queue_notmem {nid jid : String} {s : QState}
    (h : nid ∉ s.queue) : nid ∉ ((removeJob jid s).1).queue := by
  cases hj : jsGet jid s.jobs with
  | none => rw [removeJob_of_none hj]; exact h
  | some j =>
    by_cases hst : j.status = Status.processing
    · rw [removeJob_of_processing hj hst]; exact h
    · rw [removeJob_of_removable hj hst]
      intro hmem
      exact h (List.mem_of_mem_filter hmem)

theorem jsSet_mem_elim {α : Type} {p' : String × α} {k : String} {v : α}
    {m : List (String × α)} (h : p' ∈ jsSet k v m) : p' = (k, v) ∨ p' ∈ m := by
  unfold jsSet at h
  split at h
  · rcases List.mem_map.mp h with ⟨p, hp, he⟩
    by_cases hk : p.1 = k
    · rw [if_pos hk] at he; exact Or.inl he.symm
    · rw [if_neg hk] at he; exact Or.inr (he ▸ hp)
  · rcases List.mem_append.mp h with h1 | h1
    · exact Or.inr h1
    · exact Or.inl (List.mem_singleton.mp h1)

theorem removeSess_mem_elim {p' : String × List String} {sid jid : String}
    {sj : List (String × List String)} (h : p' ∈ removeSess sid jid sj) :
    p' ∈ sj ∨ ∃ order, jsGet sid sj = some order ∧ p' = (sid, order.erase jid) := by
  unfold removeSess at h
  cases hs : jsGet sid sj with
  | none => rw [hs] at h; exact Or.inl h
  | some order =>
    rw [hs] at h
    dsimp only at h
    split at h
    · exact Or.inl (jsDelete_mem h)
    · rcases jsSet_mem_elim h with h1 | h1
      · exact Or.inr ⟨order, rfl, h1⟩
      · exact Or.inl h1

theorem removeJob_orders_notmem {nid jid : String} {s : QState}
    (h : ∀ p ∈ s.sessionJobs, nid ∉ p.2) :
    ∀ p ∈ ((removeJob jid s).1).sessionJobs, nid ∉ p.2 := by
  cases hj : jsGet jid s.jobs with
  | none => rw [removeJob_of_none hj]; exact h
  | some j =>
    by_cases hst : j.status = Status.processing
    · rw [removeJob_of_processing hj hst]; exact h
    · rw [removeJob_of_removable hj hst]
      intro p hp
      dsimp only at hp
      rcases removeSess_mem_elim hp with h1 | ⟨order, ho, he⟩
      · exact h p h1
      · rw [he]
        intro hmem
        exact h (j.sessionId, order) (jsGet_mem ho) (List.mem_of_mem_erase hmem)

theorem removeJob_fullinv {jid : String} {s : QState} (hinv : FullInv s) :
    FullInv ((removeJob jid s).1) := by
  obtain ⟨hA, hB, hC, hD, hE⟩ := hinv
  cases hj : jsGet jid s.jobs with
  | none => rw [removeJob_of_none hj]; exact ⟨hA, hB, hC, hD, hE⟩
  | some j =>
    by_cases hst : j.status = Status.processing
    · rw [removeJob_of_processing hj hst]; exact ⟨hA, hB, hC, hD, hE⟩
    · rw [removeJob_of_removable hj hst]
      refine ⟨?_, ?_, ?_, ?_, ?_⟩
      · exact List.Nodup.sublist (jsDelete_keys_sublist jid s.jobs) hA
      · intro p hp
        exact hB p (jsDelete_mem hp)
      · intro p hp id hid jj hjj
        have hjj0 : jsGet id s.jobs = some jj := by
          rw [jsGet_jsDelete] at hjj
          split at hjj
          · cases hjj
          · exact hjj
        rcases removeSess_mem_elim hp with h1 | ⟨order, ho, he⟩
        · exact hC p h1 id hid jj hjj0
        · rw [he] at hid ⊢
          exact hC (j.sessionId, order) (jsGet_mem ho) id
            (List.mem_of_mem_erase hid) jj hjj0
      · intro p hp hproc
        exact hD p (jsDelete_mem hp) hproc
      · intro m hm
        obtain ⟨jm, hjm, hjmp⟩ := hE m hm
        have hne : m ≠ jid := by
          intro hc
          subst hc
          rw [hj] at hjm
          cases hjm
          exact hst hjmp
        refine ⟨jm, ?_, hjmp⟩
        rw [jsGet_jsDelete, if_neg hne]
        exact hjm

/-! ## cleanupExpiredJobs lemmas -/

theorem foldl_inv {β : Type} {P : QState → Prop} {f : QState → β → QState}
    (hf : ∀ s b, P s → P (f s b)) :
    ∀ (l : List β) (s : QState), P s → P (l.foldl f s) := by
  intro l
  induction l with
  | nil => intro s h; exact h
  | cons b t ih => intro s h; exact ih (f s b) (hf s b h)

theorem cleanupStep_cases (now : Nat) (s : QState) (p : String × Job) :
    cleanupStep now s p = s ∨ cleanupStep now s p = (removeJob p.1 s).1 := by
  unfold cleanupStep
  split
  · exact Or.inl rfl
  · split
    · exact Or.inr rfl
    · exact Or.inl rfl

theorem cleanup_fullinv {now : Nat} {s : QState} (hinv : FullInv s) :
    FullInv (cleanupExpiredJobs now s) := by
  unfold cleanupExpiredJobs
  refine foldl_inv (fun s' p h => ?_) s.jobs s hinv
  rcases cleanupStep_cases now s' p with hc | hc
  · rw [hc]; exact h
  · rw [hc]; exact removeJob_fullinv h

theorem cleanup_marker (now : Nat) (s : QState) :
    (cleanupExpiredJobs now s).processingJob = s.processingJob := by
  unfold cleanupExpiredJobs
  refine foldl_inv (P := fun s' => s'.processingJob = s.processingJob)
    (fun s' p h => ?_) s.jobs s rfl
  rcases cleanupStep_cases now s' p with hc | hc
  · rw [hc]; exact h
  · rw [hc, removeJob_marker]; exact h

theorem cleanup_lookup_cases (now : Nat) (s : QState) (id : String) :
    jsGet id (cleanupExpiredJobs now s).jobs = jsGet id s.jobs ∨
      jsGet id (cleanupExpiredJobs now s).jobs = none := by
  unfold cleanupExpiredJobs
  refine foldl_inv
    (P := fun s' => jsGet id s'.jobs = jsGet id s.jobs ∨ jsGet id s'.jobs = none)
    (fun s' p h => ?_) s.jobs s (Or.inl rfl)
  rcases cleanupStep_cases now s' p with hc | hc
  · rw [hc]; exact h
  · rcases h with h | h
    · rcases removeJob_lookup_cases id p.1 s' with h2 | h2
      · rw [hc, h2]; exact Or.inl h
      · rw [hc]; exact Or.inr h2
    · rw [hc]; exact Or.inr (removeJob_lookup_none h)

theorem cleanup_lookup_none {now : Nat} {s : QState} {id : String}
    (h : jsGet id s.jobs = none) :
    jsGet id (cleanupExpiredJobs now s).jobs = none := by
  rcases cleanup_lookup_cases now s id with hc | hc
  · rw [hc]; exact h
  · exact hc

theorem cleanup_queue_notmem {now : Nat} {s : QState} {nid : String}
    (h : nid ∉ s.queue) : nid ∉ (cleanupExpiredJobs now s).queue := by
  unfold cleanupExpiredJobs
  refine foldl_inv (P := fun s' => nid ∉ s'.queue) (fun s' p hq => ?_) s.jobs s h
  rcases cleanupStep_cases now s' p with hc | hc
  · rw [hc]; exact hq
  · rw [hc]; exact removeJob_queue_notmem hq

theorem cleanup_orders_notmem {now : Nat} {s : QState} {nid : String}
    (h : ∀ p ∈ s.sessionJobs, nid ∉ p.2) :
    ∀ p ∈ (cleanupExpiredJobs now s).sessionJobs, nid ∉ p.2 := by
  unfold cleanupExpiredJobs
  refine foldl_inv (P := fun s' => ∀ p ∈ s'.sessionJobs, nid ∉ p.2)
    (fun s' p hq => ?_) s.jobs s h
  rcases cleanupStep_cases now s' p with hc | hc
  · rw [hc]; exact hq
  · rw [hc]; exact removeJob_orders_notmem hq

theorem cleanup_keeps_processing {now : Nat} {s : QState} {id : String} {j : Job}
    (h : jsGet id s.jobs = some j) (hp : j.status = Status.processing) :
    jsGet id (cleanupExpiredJobs now s).jobs = some j := by
  unfold cleanupExpiredJobs
  refine foldl_inv (P := fun s' => jsGet id s'.jobs = some j)
    (fun s' p hq => ?_) s.jobs s h
  rcases cleanupStep_cases now s' p with hc | hc
  · rw [hc]; exact hq
  · rw [hc]; exact removeJob_keeps_processing hq hp

/-! ## trimSessionJobs lemmas -/

theorem trimLoop_pres {P : QState → Prop}
    (hP : ∀ jid s, P s → P ((removeJob jid s).1)) (sid : String) :
    ∀ (fuel : Nat) (s : QState), P s → P (trimLoop sid fuel s) := by
  intro fuel
  induction fuel with
  | zero => intro s h; exact h
  | succ n ih =>
    intro s h
    unfold trimLoop
    cases hs : jsGet sid s.sessionJobs with
    | none => exact h
    | some order =>
      dsimp only
      by_cases hlen : MAX_STORED_JOBS_PER_SESSION < order.length
      · rw [if_pos hlen]
        cases order with
        | nil => exact h
        | cons oldest rest =>
          dsimp only
          by_cases hr : (removeJob oldest s).2 = true
          · rw [if_pos hr]
            exact ih _ (hP oldest s h)
          · rw [if_neg hr]
            exact hP oldest s h
      · rw [if_neg hlen]
        exact h

theorem trim_fullinv {sid : String} {s : QState} (hinv : FullInv s) :
    FullInv (trimSessionJobs sid s) :=
  trimLoop_pres (fun _ _ h => removeJob_fullinv h) sid _ s hinv

theorem trim_marker (sid : String) (s : QState) :
    (trimSessionJobs sid s).processingJob = s.processingJob := by
  refine trimLoop_pres (P := fun s' => s'.processingJob = s.processingJob)
    (fun jid s' h => ?_) sid _ s rfl
  show ((removeJob jid s').1).processingJob = s.processingJob
  rw [removeJob_marker]
  exact h

theorem trim_lookup_cases (sid : String) (s : QState) (id : String) :
    jsGet id (trimSessionJobs sid s).jobs = jsGet id s.jobs ∨
      jsGet id (trimSessionJobs sid s).jobs = none := by
  refine trimLoop_pres
    (P := fun s' => jsGet id s'.jobs = jsGet id s.jobs ∨ jsGet id s'.jobs = none)
    (fun jid s' h => ?_) sid _ s (Or.inl rfl)
  rcases h with h | h
  · rcases removeJob_lookup_cases id jid s' with h2 | h2
    · rw [h2]; exact Or.inl h
    · exact Or.inr h2
  · exact Or.inr (removeJob_lookup_none h)

theorem trim_queue_notmem {sid nid : String} {s : QState}
    (h : nid ∉ s.queue) : nid ∉ (trimSessionJobs sid s).queue := by
  refine trimLoop_pres (P := fun s' => nid ∉ s'.queue)
    (fun jid s' hq => removeJob_queue_notmem hq) sid _ s h

theorem trim_keeps_processing {sid id : String} {s : QState} {j : Job}
    (h : jsGet id s.jobs = some j) (hp : j.status = Status.processing) :
    jsGet id (trimSessionJobs sid s).jobs = some j := by
  refine trimLoop_pres (P := fun s' => jsGet id s'.jobs = some j)
    (fun jid s' hq => removeJob_keeps_processing hq hp) sid _ s h

/-! ## processQueue lemmas -/

theorem pq_noop_of_busy {now : Nat} {s : QState} (hm : s.processingJob.isSome) :
    processQueueStep now s = s := by
  unfold processQueueStep
  rw [if_pos hm]

theorem pq_noop_of_empty {now : Nat} {s : QState} (hq : s.queue = []) :
    processQueueStep now s = s := by
  unfold processQueueStep
  by_cases hm : s.processingJob.isSome
  · rw [if_pos hm]
  · rw [if_neg hm, hq]

theorem pq_pick {now : Nat} {s : QState} {nid : String} {rest : List String} {j : Job}
    (hm : ¬ s.processingJob.isSome) (hq : s.queue = nid :: rest)
    (hj : jsGet nid s.jobs = some j) (hst : j.status = Status.queued) :
    processQueueStep now s =
      ⟨s.jobs.map (fun p => if p.1 = nid then (p.1, runJobStart now p.2) else p),
        rest, s.sessionJobs, some nid⟩ := by
  unfold processQueueStep
  rw [if_neg hm, hq]
  dsimp only
  rw [hj]
  dsimp only
  rw [if_neg (by simp [hst])]

theorem pq_sessionJobs (now : Nat) (s : QState) :
    (processQueueStep now s).sessionJobs = s.sessionJobs := by
  unfold processQueueStep
  by_cases hm : s.processingJob.isSome
  · rw [if_pos hm]
  · rw [if_neg hm]
    cases hq : s.queue with
    | nil => rfl
    | cons nid rest =>
      dsimp only
      cases hj : jsGet nid s.jobs with
      | none => rfl
      | some j =>
        dsimp only
        by_cases hst : j.status ≠ Status.queued
        · rw [if_pos hst]
        · rw [if_neg hst]

theorem pq_lookup_cases (now : Nat) (s : QState) (id : String) :
    jsGet id (processQueueStep now s).jobs = jsGet id s.jobs ∨
      ∃ j, s.processingJob = none ∧ s.queue.head? = some id ∧
        jsGet id s.jobs = some j ∧ j.status = Status.queued ∧
        jsGet id (processQueueStep now s).jobs = some (runJobStart now j) := by
  unfold processQueueStep
  by_cases hm : s.processingJob.isSome
  · rw [if_pos hm]; exact Or.inl rfl
  · rw [if_neg hm]
    cases hq : s.queue with
    | nil => exact Or.inl rfl
    | cons nid rest =>
      dsimp only
      cases hj : jsGet nid s.jobs with
      | none => exact Or.inl rfl
      | some j =>
        dsimp only
        by_cases hst : j.status ≠ Status.queued
        · rw [if_pos hst]; exact Or.inl rfl
        · rw [if_neg hst]
          by_cases hid : id = nid
          · subst hid
            right
            refine ⟨j, Option.not_isSome_iff_eq_none.mp hm, rfl, hj, not_not.mp hst, ?_⟩
            rw [jsGet_update, if_pos rfl, hj]
            rfl
          · left
            rw [jsGet_update, if_neg hid]

theorem update_mem_elim {α : Type} {p' : String × α} {target : String} {f : α → α}
    {m : List (String × α)}
    (h : p' ∈ m.map (fun p => if p.1 = target then (p.1, f p.2) else p)) :
    ∃ p, p ∈ m ∧ ((p.1 ≠ target ∧ p' = p) ∨ (p.1 = target ∧ p' = (p.1, f p.2))) := by
  rcases List.mem_map.mp h with ⟨p, hp, he⟩
  by_cases hk : p.1 = target
  · rw [if_pos hk] at he
    exact ⟨p, hp, Or.inr ⟨hk, he.symm⟩⟩
  · rw [if_neg hk] at he
    exact ⟨p, hp, Or.inl ⟨hk, he.symm⟩⟩

theorem runJobStart_id (now : Nat) (j : Job) : (runJobStart now j).id = j.id := rfl

theorem runJobStart_sessionId (now : Nat) (j : Job) :
    (runJobStart now j).sessionId = j.sessionId := rfl

theorem runJobStart_status (now : Nat) (j : Job) :
    (runJobStart now j).status = Status.processing := rfl

theorem update_keys_nodup {α : Type} {target : String} {f : α → α}
    {m : List (String × α)} (hA : (m.map Prod.fst).Nodup) :
    ((m.map (fun p => if p.1 = target then (p.1, f p.2) else p)).map Prod.fst).Nodup := by
  rw [update_keys]
  exact hA

theorem pq_fullinv {now : Nat} {s : QState} (hinv : FullInv s) :
    FullInv (processQueueStep now s) := by
  obtain ⟨hA, hB, hC, hD, hE⟩ := hinv
  by_cases hm : s.processingJob.isSome
  · rw [pq_noop_of_busy hm]; exact ⟨hA, hB, hC, hD, hE⟩
  · have hmn : s.processingJob = none := Option.not_isSome_iff_eq_none.mp hm
    cases hq : s.queue with
    | nil => rw [pq_noop_of_empty hq]; exact ⟨hA, hB, hC, hD, hE⟩
    | cons nid rest =>
      unfold processQueueStep
      rw [if_neg hm, hq]
      dsimp only
      cases hj : jsGet nid s.jobs with
      | none => exact ⟨hA, hB, hC, hD, hE⟩
      | some j =>
        dsimp only
        by_cases hst : j.status ≠ Status.queued
        · rw [if_pos hst]
          exact ⟨hA, hB, hC, hD, hE⟩
        · rw [if_neg hst]
          refine ⟨update_keys_nodup hA, ?_, ?_, ?_, ?_⟩
          · intro p' hp'
            rcases update_mem_elim hp' with ⟨p, hp, ⟨_, hc⟩ | ⟨hpt, hc⟩⟩
            · rw [hc]; exact hB p hp
            · rw [hc]
              exact hB p hp
          · intro p' hp' id hid jj hjj
            rw [jsGet_update] at hjj
            by_cases hid2 : id = nid
            · rw [if_pos hid2, hid2, hj] at hjj
              have hjje : jj = runJobStart now j := by cases hjj; rfl
              rw [hjje, runJobStart_sessionId]
              exact hC p' hp' id hid j (by rw [hid2]; exact hj)
            · rw [if_neg hid2] at hjj
              exact hC p' hp' id hid jj hjj
          · intro p' hp' hproc
            rcases update_mem_elim hp' with ⟨p, hp, ⟨_, hc⟩ | ⟨hpt, hc⟩⟩
            · exfalso
              rw [hc] at hproc
              have := hD p hp hproc
              rw [hmn] at this
              cases this
            · rw [hc]
              rw [hpt]
          · intro m hm2
            have hmn2 : m = nid := by cases hm2; rfl
            subst hmn2
            refine ⟨runJobStart now j, ?_, runJobStart_status now j⟩
            show jsGet m (s.jobs.map
              (fun p => if p.1 = m then (p.1, runJobStart now p.2) else p)) =
              some (runJobStart now j)
            rw [jsGet_update, if_pos rfl, hj]
            rfl

/-! ## settleJob and applyProgress lemmas -/

theorem settleApply_id (now : Nat) (res : Except String DownloadResult) (j : Job) :
    (settleApply now res j).id = j.id := by
  cases res <;> rfl

theorem settleApply_sessionId (now : Nat) (res : Except String DownloadResult) (j : Job) :
    (settleApply now res j).sessionId = j.sessionId := by
  cases res <;> rfl

theorem settleApply_status (now : Nat) (res : Except String DownloadResult) (j : Job) :
    (settleApply now res j).status = Status.completed ∨
      (settleApply now res j).status = Status.failed := by
  cases res with
  | ok r => exact Or.inl rfl
  | error e => exact Or.inr rfl

theorem settleApply_not_processing (now : Nat) (res : Except String DownloadResult)
    (j : Job) : (settleApply now res j).status ≠ Status.processing := by
  rcases settleApply_status now res j with h | h <;> rw [h] <;> intro hc <;> cases hc

theorem settle_of_none {now : Nat} {res : Except String DownloadResult} {s : QState}
    (hm : s.processingJob = none) : settleJob now res s = s := by
  unfold settleJob
  rw [hm]

theorem settle_of_some {now : Nat} {res : Except String DownloadResult} {s : QState}
    {mid : String} (hm : s.processingJob = some mid) :
    settleJob now res s =
      ⟨s.jobs.map (fun p => if p.1 = mid then (p.1, settleApply now res p.2) else p),
        s.queue, s.sessionJobs, none⟩ := by
  unfold settleJob
  rw [hm]

theorem settle_fullinv {now : Nat} {res : Except String DownloadResult} {s : QState}
    (hinv : FullInv s) : FullInv (settleJob now res s) := by
  obtain ⟨hA, hB, hC, hD, hE⟩ := hinv
  cases hm : s.processingJob with
  | none => rw [settle_of_none hm]; exact ⟨hA, hB, hC, hD, hE⟩
  | some mid =>
    rw [settle_of_some hm]
    refine ⟨update_keys_nodup hA, ?_, ?_, ?_, ?_⟩
    · intro p' hp'
      rcases update_mem_elim hp' with ⟨p, hp, ⟨_, hc⟩ | ⟨hpt, hc⟩⟩
      · rw [hc]; exact hB p hp
      · rw [hc]
        show (settleApply now res p.2).id = p.1
        rw [settleApply_id]
        exact hB p hp
    · intro p' hp' id hid jj hjj
      rw [jsGet_update] at hjj
      by_cases hid2 : id = mid
      · rw [if_pos hid2] at hjj
        cases hg : jsGet id s.jobs with
        | none => rw [hg] at hjj; cases hjj
        | some jorig =>
          rw [hg] at hjj
          have hjje : jj = settleApply now res jorig := by cases hjj; rfl
          rw [hjje, settleApply_sessionId]
          exact hC p' hp' id hid jorig hg
      · rw [if_neg hid2] at hjj
        exact hC p' hp' id hid jj hjj
    · intro p' hp' hproc
      exfalso
      rcases update_mem_elim hp' with ⟨p, hp, ⟨hne, hc⟩ | ⟨hpt, hc⟩⟩
      · rw [hc] at hproc
        have := hD p hp hproc
        rw [hm] at this
        have : p.1 = mid := by cases this; rfl
        exact hne this
      · rw [hc] at hproc
        exact settleApply_not_processing now res p.2 hproc
    · intro m hm2
      cases hm2

theorem progressApply_id (now : Nat) (stage msg : String) (p : JsNum) (j : Job) :
    (progressApply now stage msg p j).id = j.id := rfl

theorem progressApply_sessionId (now : Nat) (stage msg : String) (p : JsNum) (j : Job) :
    (progressApply now stage msg p j).sessionId = j.sessionId := rfl

theorem progressApply_status (now : Nat) (stage msg : String) (p : JsNum) (j : Job) :
    (progressApply now stage msg p j).status = j.status := rfl

theorem progress_of_none {now : Nat} {stage msg : String} {p : JsNum} {s : QState}
    (hm : s.processingJob = none) : applyProgress now stage msg p s = s := by
  unfold applyProgress
  rw [hm]

theorem progress_of_some {now : Nat} {stage msg : String} {p : JsNum} {s : QState}
    {mid : String} (hm : s.processingJob = some mid) :
    applyProgress now stage msg p s =
      ⟨s.jobs.map (fun q => if q.1 = mid then (q.1, progressApply now stage msg p q.2) else q),
        s.queue, s.sessionJobs, s.processingJob⟩ := by
  unfold applyProgress
  rw [hm]

theorem progress_fullinv {now : Nat} {stage msg : String} {pv : JsNum} {s : QState}
    (hinv : FullInv s) : FullInv (applyProgress now stage msg pv s) := by
  obtain ⟨hA, hB, hC, hD, hE⟩ := hinv
  cases hm : s.processingJob with
  | none => rw [progress_of_none hm]; exact ⟨hA, hB, hC, hD, hE⟩
  | some mid =>
    rw [progress_of_some hm]
    refine ⟨update_keys_nodup hA, ?_, ?_, ?_, ?_⟩
    · intro p' hp'
      rcases update_mem_elim hp' with ⟨p, hp, ⟨_, hc⟩ | ⟨hpt, hc⟩⟩
      · rw [hc]; exact hB p hp
      · rw [hc]
        show (progressApply now stage msg pv p.2).id = p.1
        rw [progressApply_id]
        exact hB p hp
    · intro p' hp' id hid jj hjj
      rw [jsGet_update] at hjj
      by_cases hid2 : id = mid
      · rw [if_pos hid2] at hjj
        cases hg : jsGet id s.jobs with
        | none => rw [hg] at hjj; cases hjj
        | some jorig =>
          rw [hg] at hjj
          have hjje : jj = progressApply now stage msg pv jorig := by cases hjj; rfl
          rw [hjje, progressApply_sessionId]
          exact hC p' hp' id hid jorig hg
      · rw [if_neg hid2] at hjj
        exact hC p' hp' id hid jj hjj
    · intro p' hp' hproc
      rcases update_mem_elim hp' with ⟨p, hp, ⟨_, hc⟩ | ⟨hpt, hc⟩⟩
      · rw [hc] at hproc
        rw [hc]
        exact hD p hp hproc
      · rw [hc] at hproc
        have hps : p.2.status = Status.processing := by
          rw [← progressApply_status now stage msg pv p.2]
          exact hproc
        rw [hc]
        exact hD p hp hps
    · intro m hm2
      have hmm : m = mid := by
        have : s.processingJob = some m := hm2
        rw [hm] at this
        cases this
        rfl
      subst hmm
      obtain ⟨jm, hjm, hjmp⟩ := hE m hm
      refine ⟨progressApply now stage msg pv jm, ?_, ?_⟩
      · show jsGet m (s.jobs.map
          (fun q => if q.1 = m then (q.1, progressApply now stage msg pv q.2) else q)) =
          some (progressApply now stage msg pv jm)
        rw [jsGet_update, if_pos rfl, hjm]
        rfl
      · rw [progressApply_status]
        exact hjmp

/-! ## Finer removeJob / trim lemmas -/

theorem removeSess_other {sidv vsid jid : String} {sj : List (String × List String)}
    (h : vsid ≠ sidv) : jsGet vsid (removeSess sidv jid sj) = jsGet vsid sj := by
  unfold removeSess
  cases hs : jsGet sidv sj with
  | none => rfl
  | some order =>
    dsimp only
    split
    · rw [jsGet_jsDelete, if_neg h]
    · rw [jsGet_jsSet_other h]

theorem removeSess_self {sidv jid : String} {sj : List (String × List String)}
    {ord : List String} (h : jsGet sidv sj = some ord) :
    jsGet sidv (removeSess sidv jid sj) =
      if ord.erase jid = [] then none else some (ord.erase jid) := by
  unfold removeSess
  rw [h]
  dsimp only
  split
  · rw [jsGet_jsDelete, if_pos rfl]
  · rw [jsGet_jsSet_self]

theorem removeJob_false_elim {jid : String} {s : QState}
    (h : (removeJob jid s).2 = false) :
    (removeJob jid s).1 = s ∧
      (jsGet jid s.jobs = none ∨
        ∃ j, jsGet jid s.jobs = some j ∧ j.status = Status.processing) := by
  cases hj : jsGet jid s.jobs with
  | none => rw [removeJob_of_none hj]; exact ⟨rfl, Or.inl rfl⟩
  | some j =>
    by_cases hst : j.status = Status.processing
    · rw [removeJob_of_processing hj hst]
      exact ⟨rfl, Or.inr ⟨j, rfl, hst⟩⟩
    · rw [removeJob_of_removable hj hst] at h
      cases h

theorem removeJob_sc {jid : String} {s : QState} (hC : SessionConsistent s) :
    SessionConsistent ((removeJob jid s).1) := by
  cases hj : jsGet jid s.jobs with
  | none => rw [removeJob_of_none hj]; exact hC
  | some j =>
    by_cases hst : j.status = Status.processing
    · rw [removeJob_of_processing hj hst]; exact hC
    · rw [removeJob_of_removable hj hst]
      intro p hp id hid jj hjj
      have hjj0 : jsGet id s.jobs = some jj := by
        rw [jsGet_jsDelete] at hjj
        split at hjj
        · cases hjj
        · exact hjj
      rcases removeSess_mem_elim hp with h1 | ⟨order, ho, he⟩
      · exact hC p h1 id hid jj hjj0
      · rw [he] at hid ⊢
        exact hC (j.sessionId, order) (jsGet_mem ho) id
          (List.mem_of_mem_erase hid) jj hjj0

/-- The trim loop with context: the preserved predicate may use the
fact that the removed id is the head of the session's over-long
order. -/
theorem trimLoop_pres_ctx {sid : String} {P : QState → Prop}
    (hP : ∀ jid rest s, P s → jsGet sid s.sessionJobs = some (jid :: rest) →
      MAX_STORED_JOBS_PER_SESSION < (jid :: rest).length → P ((removeJob jid s).1)) :
    ∀ (fuel : Nat) (s : QState), P s → P (trimLoop sid fuel s) := by
  intro fuel
  induction fuel with
  | zero => intro s h; exact h
  | succ n ih =>
    intro s h
    unfold trimLoop
    cases hs : jsGet sid s.sessionJobs with
    | none => exact h
    | some order =>
      dsimp only
      by_cases hlen : MAX_STORED_JOBS_PER_SESSION < order.length
      · rw [if_pos hlen]
        cases order with
        | nil => exact h
        | cons oldest rest =>
          dsimp only
          by_cases hr : (removeJob oldest s).2 = true
          · rw [if_pos hr]
            exact ih _ (hP oldest rest s h hs hlen)
          · rw [if_neg hr]
            exact hP oldest rest s h hs hlen
      · rw [if_neg hlen]
        exact h

/-- The registered job with a fresh id survives `trimSessionJobs`: the
trim only ever removes the head of the session's order while that
order is over-long, and the fresh id sits alone at its very end. -/
theorem trim_keeps_fresh {vsid newId : String} {job : Job} {s : QState}
    (hj : jsGet newId s.jobs = some job)
    (hord : ∃ L, jsGet vsid s.sessionJobs = some (L ++ [newId]) ∧ newId ∉ L) :
    jsGet newId (trimSessionJobs vsid s).jobs = some job ∧
      (∃ L, jsGet vsid (trimSessionJobs vsid s).sessionJobs = some (L ++ [newId]) ∧
        newId ∉ L) := by
  refine trimLoop_pres_ctx (P := fun s' =>
      jsGet newId s'.jobs = some job ∧
      (∃ L, jsGet vsid s'.sessionJobs = some (L ++ [newId]) ∧ newId ∉ L))
    ?_ _ s ⟨hj, hord⟩
  intro jid rest s' hPs hgets hlen
  obtain ⟨hj', L, hL, hnotin⟩ := hPs
  -- the head of the over-long order is inside L, hence is not newId
  have hLne : L ≠ [] := by
    intro hc
    rw [hc] at hL
    rw [hL] at hgets
    cases hgets
    simp [MAX_STORED_JOBS_PER_SESSION] at hlen
  obtain ⟨l0, L2, hLeq⟩ : ∃ l0 L2, L = l0 :: L2 := by
    cases L with
    | nil => exact absurd rfl hLne
    | cons a b => exact ⟨a, b, rfl⟩
  have hjid : jid = l0 ∧ rest = L2 ++ [newId] := by
    rw [hL] at hgets
    rw [hLeq] at hgets
    cases hgets
    exact ⟨rfl, rfl⟩
  have hjidne : jid ≠ newId := by
    rw [hjid.1]
    intro hc
    exact hnotin (by rw [hLeq, ← hc]; exact List.mem_cons_self l0 L2)
  cases hjg : jsGet jid s'.jobs with
  | none =>
    rw [removeJob_of_none hjg]
    exact ⟨hj', L, hL, hnotin⟩
  | some jh =>
    by_cases hst : jh.status = Status.processing
    · rw [removeJob_of_processing hjg hst]
      exact ⟨hj', L, hL, hnotin⟩
    · rw [removeJob_of_removable hjg hst]
      refine ⟨?_, ?_⟩
      · show jsGet newId (jsDelete jid s'.jobs) = some job
        rw [jsGet_jsDelete, if_neg (fun hc => hjidne (hc.symm))]
        exact hj'
      · show ∃ L', jsGet vsid (removeSess jh.sessionId jid s'.sessionJobs) =
          some (L' ++ [newId]) ∧ newId ∉ L'
        by_cases hsess : vsid = jh.sessionId
        · rw [← hsess]
          have hown : jsGet vsid s'.sessionJobs = some (L ++ [newId]) := hL
          rw [removeSess_self hown]
          have herase : (L ++ [newId]).erase jid = L2 ++ [newId] := by
            rw [hLeq, ← hjid.1]
            rw [List.cons_append, List.erase_cons_head]
          rw [herase]
          rw [if_neg (by simp)]
          refine ⟨L2, rfl, ?_⟩
          intro hc
          exact hnotin (by rw [hLeq]; exact List.mem_cons_of_mem l0 hc)
        · rw [removeSess_other hsess]
          exact ⟨L, hL, hnotin⟩

/-- After `trimSessionJobs`, the session's order is a tail of what it
was: trimming only ever drops jobs from the front (oldest first). -/
theorem trim_order_drop (vsid : String) :
    ∀ (fuel : Nat) (s : QState),
      ∃ k, sessionOrderOf (trimLoop vsid fuel s) vsid = (sessionOrderOf s vsid).drop k := by
  intro fuel
  induction fuel with
  | zero => intro s; exact ⟨0, rfl⟩
  | succ n ih =>
    intro s
    unfold trimLoop
    cases hs : jsGet vsid s.sessionJobs with
    | none => exact ⟨0, rfl⟩
    | some order =>
      dsimp only
      by_cases hlen : MAX_STORED_JOBS_PER_SESSION < order.length
      · rw [if_pos hlen]
        cases order with
        | nil => exact ⟨0, rfl⟩
        | cons oldest rest =>
          dsimp only
          have hordv : sessionOrderOf s vsid = oldest :: rest := by
            unfold sessionOrderOf
            rw [hs]
            rfl
          cases hjg : jsGet oldest s.jobs with
          | none =>
            rw [removeJob_of_none hjg]
            dsimp only
            rw [if_neg (by simp)]
            exact ⟨0, rfl⟩
          | some jh =>
            by_cases hst : jh.status = Status.processing
            · rw [removeJob_of_processing hjg hst]
              dsimp only
              rw [if_neg (by simp)]
              exact ⟨0, rfl⟩
            · rw [removeJob_of_removable hjg hst]
              dsimp only
              rw [if_pos rfl]
              set s2 : QState :=
                ⟨jsDelete oldest s.jobs, s.queue.filter (fun q => q ≠ oldest),
                  removeSess jh.sessionId oldest s.sessionJobs, s.processingJob⟩ with hs2
              obtain ⟨k, hk⟩ := ih s2
              by_cases hsess : vsid = jh.sessionId
              · refine ⟨k + 1, ?_⟩
                rw [hk]
                have hord2 : sessionOrderOf s2 vsid = rest := by
                  unfold sessionOrderOf
                  rw [hs2]
                  show (jsGet vsid (removeSess jh.sessionId oldest s.sessionJobs)).getD [] =
                    rest
                  rw [← hsess, removeSess_self hs, List.erase_cons_head]
                  split
                  · next he => rw [he]; rfl
                  · rfl
                rw [hord2, hordv, List.drop_succ_cons]
              · refine ⟨k, ?_⟩
                rw [hk]
                have hord2 : sessionOrderOf s2 vsid = sessionOrderOf s vsid := by
                  unfold sessionOrderOf
                  rw [hs2]
                  show (jsGet vsid (removeSess jh.sessionId oldest s.sessionJobs)).getD [] =
                    (jsGet vsid s.sessionJobs).getD []
                  rw [removeSess_other hsess]
                rw [hord2]
      · rw [if_neg hlen]
        exact ⟨0, rfl⟩

/-- With fuel at least the current order length, the trim loop runs to
its exit condition: afterwards the session's order is within the cap,
or its head is a job the remover refuses to touch (missing or
`processing`).  Session consistency makes every successful removal
shorten the session's own order by one. -/
theorem trimLoop_len (vsid : String) :
    ∀ (fuel : Nat) (s : QState), SessionConsistent s →
      (sessionOrderOf s vsid).length ≤ fuel →
      (sessionOrderOf (trimLoop vsid fuel s) vsid).length ≤ MAX_STORED_JOBS_PER_SESSION ∨
      ∃ h t, sessionOrderOf (trimLoop vsid fuel s) vsid = h :: t ∧
        (jsGet h (trimLoop vsid fuel s).jobs = none ∨
         ∃ jh, jsGet h (trimLoop vsid fuel s).jobs = some jh ∧
           jh.status = Status.processing) := by
  intro fuel
  induction fuel with
  | zero =>
    intro s hsc hlen
    left
    show (sessionOrderOf s vsid).length ≤ MAX_STORED_JOBS_PER_SESSION
    omega
  | succ n ih =>
    intro s hsc hlen
    unfold trimLoop
    cases hs : jsGet vsid s.sessionJobs with
    | none =>
      left
      show (sessionOrderOf s vsid).length ≤ MAX_STORED_JOBS_PER_SESSION
      unfold sessionOrderOf
      rw [hs]
      simp [MAX_STORED_JOBS_PER_SESSION]
    | some order =>
      have hordv : sessionOrderOf s vsid = order := by
        unfold sessionOrderOf
        rw [hs]
        rfl
      dsimp only
      by_cases hbig : MAX_STORED_JOBS_PER_SESSION < order.length
      · rw [if_pos hbig]
        cases order with
        | nil => simp [MAX_STORED_JOBS_PER_SESSION] at hbig
        | cons oldest rest =>
          dsimp only
          cases hjg : jsGet oldest s.jobs with
          | none =>
            rw [removeJob_of_none hjg]
            dsimp only
            rw [if_neg (by simp)]
            right
            exact ⟨oldest, rest, hordv, Or.inl hjg⟩
          | some jh =>
            by_cases hst : jh.status = Status.processing
            · rw [removeJob_of_processing hjg hst]
              dsimp only
              rw [if_neg (by simp)]
              right
              exact ⟨oldest, rest, hordv, Or.inr ⟨jh, hjg, hst⟩⟩
            · rw [removeJob_of_removable hjg hst]
              dsimp only
              rw [if_pos rfl]
              have hsessid : jh.sessionId = vsid :=
                hsc (vsid, oldest :: rest) (jsGet_mem hs) oldest
                  (List.mem_cons_self oldest rest) jh hjg
              set s2 : QState :=
                ⟨jsDelete oldest s.jobs, s.queue.filter (fun q => q ≠ oldest),
                  removeSess jh.sessionId oldest s.sessionJobs, s.processingJob⟩ with hs2
              have hsc2 : SessionConsistent s2 := by
                have hr := @removeJob_sc oldest s hsc
                rw [removeJob_of_removable hjg hst] at hr
                exact hr
              have hord2 : sessionOrderOf s2 vsid = rest := by
                unfold sessionOrderOf
                rw [hs2]
                show (jsGet vsid (removeSess jh.sessionId oldest s.sessionJobs)).getD [] =
                  rest
                rw [hsessid, removeSess_self hs, List.erase_cons_head]
                split
                · next he => rw [he]; rfl
                · rfl
              have hlen2 : (sessionOrderOf s2 vsid).length ≤ n := by
                rw [hord2]
                rw [hordv] at hlen
                simp at hlen
                omega
              exact ih s2 hsc2 hlen2
      · rw [if_neg hbig]
        left
        show (sessionOrderOf s vsid).length ≤ MAX_STORED_JOBS_PER_SESSION
        rw [hordv]
        omega

/-! ## createJob decomposition and invariance -/

theorem createJob_ok_elim {now : Nat} {newId url sid : String} {pid : Option String}
    {rz : Option JsNum} {s s' : QState} {pj : PublicJob}
    (h : createJob now newId url sid pid rz s = Except.ok (s', pj)) :
    ∃ pk, pid = some pk ∧ validSession sid = true ∧
      s' = processQueueStep now (coreBuild now newId (jsTrim sid)
        (newJobRecord now newId (jsTrim url) (jsTrim sid) pk rz) s) ∧
      pj = toPublicJob ((jsGet newId s'.jobs).getD
        (newJobRecord now newId (jsTrim url) (jsTrim sid) pk rz)) := by
  unfold createJob createJobCore at h
  by_cases hv : validSession sid = true
  · rw [if_pos hv] at h
    cases pid with
    | none => dsimp only at h; cases h
    | some pk =>
      dsimp only at h
      rw [Except.ok.injEq, Prod.mk.injEq] at h
      refine ⟨pk, rfl, hv, h.1.symm, ?_⟩
      rw [← h.2, ← h.1]
  · rw [if_neg hv] at h
    cases h

theorem coreBuild_lookup_newid {now : Nat} {newId vsid : String} {job : Job}
    {s : QState} (hfresh : FreshId newId s) :
    jsGet newId (coreBuild now newId vsid job s).jobs = some job ∧
      newId ∉ (coreBuild now newId vsid job s).queue.dropLast ∧
      (coreBuild now newId vsid job s).queue ≠ [] ∧
      (coreBuild now newId vsid job s).queue.getLast? = some newId ∧
      (coreBuild now newId vsid job s).processingJob = s.processingJob := by
  obtain ⟨hf1, hf2, hf3⟩ := hfresh
  unfold coreBuild
  dsimp only
  have h1 : jsGet newId (cleanupExpiredJobs now s).jobs = none := cleanup_lookup_none hf1
  have h2 : ∀ p ∈ (cleanupExpiredJobs now s).sessionJobs, newId ∉ p.2 :=
    cleanup_orders_notmem hf2
  have h3 : newId ∉ (cleanupExpiredJobs now s).queue := cleanup_queue_notmem hf3
  set s1 := cleanupExpiredJobs now s with hs1
  set s2 : QState := ⟨jsSet newId job s1.jobs, s1.queue, s1.sessionJobs, s1.processingJob⟩
    with hs2
  set s3 : QState :=
    ⟨s2.jobs, s2.queue, jsSet vsid (sessionOrderOf s2 vsid ++ [newId]) s2.sessionJobs,
      s2.processingJob⟩ with hs3
  have hj3 : jsGet newId s3.jobs = some job := by
    rw [hs3]
    show jsGet newId s2.jobs = some job
    rw [hs2]
    show jsGet newId (jsSet newId job s1.jobs) = some job
    exact jsGet_jsSet_self newId job s1.jobs
  have hord3 : ∃ L, jsGet vsid s3.sessionJobs = some (L ++ [newId]) ∧ newId ∉ L := by
    refine ⟨sessionOrderOf s2 vsid, ?_, ?_⟩
    · rw [hs3]
      show jsGet vsid (jsSet vsid (sessionOrderOf s2 vsid ++ [newId]) s2.sessionJobs) =
        some (sessionOrderOf s2 vsid ++ [newId])
      exact jsGet_jsSet_self vsid _ s2.sessionJobs
    · unfold sessionOrderOf
      rw [hs2]
      show newId ∉ (jsGet vsid s1.sessionJobs).getD []
      cases hg : jsGet vsid s1.sessionJobs with
      | none => simp
      | some ow => exact h2 (vsid, ow) (jsGet_mem hg)
  obtain ⟨hkeep, _⟩ := trim_keeps_fresh hj3 hord3
  have hq3 : newId ∉ s3.queue := h3
  have hq4 : newId ∉ (trimSessionJobs vsid s3).queue := trim_queue_notmem hq3
  refine ⟨hkeep, ?_, ?_, ?_, ?_⟩
  · rw [List.dropLast_concat]
    exact hq4
  · simp
  · rw [List.getLast?_concat]
  · show (trimSessionJobs vsid s3).processingJob = s.processingJob
    rw [trim_marker]
    show s1.processingJob = s.processingJob
    rw [hs1, cleanup_marker]

theorem coreBuild_fullinv {now : Nat} {newId vsid : String} {job : Job} {s : QState}
    (hfresh : FreshId newId s) (hjid : job.id = newId) (hjsess : job.sessionId = vsid)
    (hjst : job.status = Status.queued) (hinv : FullInv s) :
    FullInv (coreBuild now newId vsid job s) := by
  obtain ⟨hf1, hf2, hf3⟩ := hfresh
  unfold coreBuild
  dsimp only
  have hinv1 : FullInv (cleanupExpiredJobs now s) := cleanup_fullinv hinv
  have h1 : jsGet newId (cleanupExpiredJobs now s).jobs = none := cleanup_lookup_none hf1
  have h2 : ∀ p ∈ (cleanupExpiredJobs now s).sessionJobs, newId ∉ p.2 :=
    cleanup_orders_notmem hf2
  set s1 := cleanupExpiredJobs now s with hs1
  obtain ⟨hA1, hB1, hC1, hD1, hE1⟩ := hinv1
  set s2 : QState := ⟨jsSet newId job s1.jobs, s1.queue, s1.sessionJobs, s1.processingJob⟩
    with hs2
  have hinv2 : FullInv s2 := by
    refine ⟨jsSet_keys_nodup job hA1, ?_, ?_, ?_, ?_⟩
    · intro p hp
      rcases jsSet_mem_elim hp with hc | hc
      · rw [hc]; exact hjid
      · exact hB1 p hc
    · intro p hp id hid jj hjj
      by_cases hidn : id = newId
      · exfalso
        rw [hidn] at hid
        exact h2 p hp hid
      · show jj.sessionId = p.1
        have : jsGet id s1.jobs = some jj := by
          rw [← jsGet_jsSet_other hidn job s1.jobs]
          exact hjj
        exact hC1 p hp id hid jj this
    · intro p hp hproc
      rcases jsSet_mem_elim hp with hc | hc
      · exfalso
        rw [hc] at hproc
        rw [hjst] at hproc
        cases hproc
      · exact hD1 p hc hproc
    · intro m hm
      obtain ⟨jm, hjm, hjmp⟩ := hE1 m hm
      have hmn : m ≠ newId := by
        intro hc
        rw [hc, h1] at hjm
        cases hjm
      refine ⟨jm, ?_, hjmp⟩
      show jsGet m (jsSet newId job s1.jobs) = some jm
      rw [jsGet_jsSet_other hmn]
      exact hjm
  obtain ⟨hA2, hB2, hC2, hD2, hE2⟩ := hinv2
  set s3 : QState :=
    ⟨s2.jobs, s2.queue, jsSet vsid (sessionOrderOf s2 vsid ++ [newId]) s2.sessionJobs,
      s2.processingJob⟩ with hs3
  have hinv3 : FullInv s3 := by
    refine ⟨hA2, hB2, ?_, hD2, hE2⟩
    intro p hp id hid jj hjj
    have hjj2 : jsGet id s2.jobs = some jj := hjj
    rcases jsSet_mem_elim hp with hc | hc
    · rw [hc]
      show jj.sessionId = vsid
      rcases List.mem_append.mp (by rw [hc] at hid; exact hid) with hidL | hidR
      · unfold sessionOrderOf at hidL
        cases hg : jsGet vsid s2.sessionJobs with
        | none => rw [hg] at hidL; cases hidL
        | some ow =>
          rw [hg] at hidL
          exact hC2 (vsid, ow) (jsGet_mem hg) id hidL jj hjj2
      · have hidn : id = newId := List.mem_singleton.mp hidR
        have : jsGet newId s2.jobs = some job := by
          rw [hs2]
          exact jsGet_jsSet_self newId job s1.jobs
        rw [hidn] at hjj2
        rw [this] at hjj2
        have : jj = job := by cases hjj2; rfl
        rw [this]
        exact hjsess
    · exact hC2 p hc id hid jj hjj2
  have hinv4 : FullInv (trimSessionJobs vsid s3) := trim_fullinv hinv3
  obtain ⟨hA4, hB4, hC4, hD4, hE4⟩ := hinv4
  exact ⟨hA4, hB4, hC4, hD4, hE4⟩

/-! ## listJobs / getJob / getJobDownloadData elimination -/

theorem listGo_out_elim (s1 : QState) :
    ∀ (l : List String) (pj : PublicJob), pj ∈ (listGo s1 l).1 →
      ∃ jid job, jsGet jid s1.jobs = some job ∧ pj = toPublicJob job := by
  intro l
  induction l with
  | nil => intro pj h; cases h
  | cons jid t ih =>
    intro pj h
    unfold listGo at h
    cases hg : jsGet jid s1.jobs with
    | none =>
      rw [hg] at h
      exact ih pj h
    | some job =>
      rw [hg] at h
      dsimp only at h
      rcases List.mem_cons.mp h with hc | hc
      · exact ⟨jid, job, hg, hc⟩
      · exact ih pj hc

theorem listGo_keep_subset (s1 : QState) :
    ∀ (l : List String) (x : String), x ∈ (listGo s1 l).2 → x ∈ l := by
  intro l
  induction l with
  | nil => intro x h; cases h
  | cons jid t ih =>
    intro x h
    unfold listGo at h
    cases hg : jsGet jid s1.jobs with
    | none =>
      rw [hg] at h
      exact List.mem_cons_of_mem jid (ih x h)
    | some job =>
      rw [hg] at h
      dsimp only at h
      rcases List.mem_cons.mp h with hc | hc
      · rw [hc]; exact List.mem_cons_self jid t
      · exact List.mem_cons_of_mem jid (ih x hc)

theorem listJobs_ok_elim {now : Nat} {sid : String} {s s' : QState}
    {out : List PublicJob} (h : listJobs now sid s = Except.ok (s', out)) :
    validSession sid = true ∧
    s'.jobs = (cleanupExpiredJobs now s).jobs ∧
    s'.queue = (cleanupExpiredJobs now s).queue ∧
    s'.processingJob = (cleanupExpiredJobs now s).processingJob ∧
    (∀ pj ∈ out, ∃ jid job,
      jsGet jid (cleanupExpiredJobs now s).jobs = some job ∧ pj = toPublicJob job) ∧
    (∀ p ∈ s'.sessionJobs, ∀ id ∈ p.2, ∃ q ∈ (cleanupExpiredJobs now s).sessionJobs,
      p.1 = q.1 ∧ id ∈ q.2) := by
  unfold listJobs at h
  by_cases hv : validSession sid = true
  · rw [if_pos hv] at h
    refine ⟨hv, ?_⟩
    set s1 := cleanupExpiredJobs now s with hs1
    dsimp only at h
    cases hg : jsGet (jsTrim sid) s1.sessionJobs with
    | none =>
      rw [hg] at h
      dsimp only at h
      rw [Except.ok.injEq, Prod.mk.injEq] at h
      rw [← h.1, ← h.2]
      refine ⟨rfl, rfl, rfl, ?_, ?_⟩
      · intro pj hpj
        exact absurd hpj (List.not_mem_nil pj)
      · intro p hp id hid
        exact ⟨p, hp, rfl, hid⟩
    | some order =>
      rw [hg] at h
      dsimp only at h
      by_cases hemp : order.isEmpty = true
      · rw [if_pos hemp] at h
        rw [Except.ok.injEq, Prod.mk.injEq] at h
        rw [← h.1, ← h.2]
        refine ⟨rfl, rfl, rfl, ?_, ?_⟩
        · intro pj hpj
          exact absurd hpj (List.not_mem_nil pj)
        · intro p hp id hid
          exact ⟨p, hp, rfl, hid⟩
      · rw [if_neg hemp] at h
        by_cases hkeep : (listGo s1 order).2.isEmpty = true
        · rw [if_pos hkeep] at h
          rw [Except.ok.injEq, Prod.mk.injEq] at h
          rw [← h.1, ← h.2]
          refine ⟨rfl, rfl, rfl, ?_, ?_⟩
          · intro pj hpj
            exact listGo_out_elim s1 order pj hpj
          · intro p hp id hid
            exact ⟨p, jsDelete_mem hp, rfl, hid⟩
        · rw [if_neg hkeep] at h
          rw [Except.ok.injEq, Prod.mk.injEq] at h
          rw [← h.1, ← h.2]
          refine ⟨rfl, rfl, rfl, ?_, ?_⟩
          · intro pj hpj
            exact listGo_out_elim s1 order pj hpj
          · intro p hp id hid
            rcases jsSet_mem_elim hp with hc | hc
            · refine ⟨(jsTrim sid, order), jsGet_mem hg, ?_, ?_⟩
              · rw [hc]
              · rw [hc] at hid
                exact listGo_keep_subset s1 order id hid
            · exact ⟨p, hc, rfl, hid⟩
  · rw [if_neg hv] at h
    cases h

theorem listJobs_fullinv {now : Nat} {sid : String} {s s' : QState}
    {out : List PublicJob} (hinv : FullInv s)
    (h : listJobs now sid s = Except.ok (s', out)) : FullInv s' := by
  obtain ⟨_, hjobs, _, hmarker, _, hsess⟩ := listJobs_ok_elim h
  obtain ⟨hA1, hB1, hC1, hD1, hE1⟩ := @cleanup_fullinv now s hinv
  refine ⟨?_, ?_, ?_, ?_, ?_⟩
  · show (s'.jobs.map Prod.fst).Nodup
    rw [hjobs]
    exact hA1
  · intro p hp
    rw [hjobs] at hp
    exact hB1 p hp
  · intro p hp id hid jj hjj
    rw [hjobs] at hjj
    obtain ⟨q, hq, hq1, hq2⟩ := hsess p hp id hid
    rw [hq1]
    exact hC1 q hq id hq2 jj hjj
  · intro p hp hproc
    rw [hjobs] at hp
    rw [hmarker]
    exact hD1 p hp hproc
  · intro m hm
    rw [hmarker] at hm
    obtain ⟨jm, hjm, hjmp⟩ := hE1 m hm
    refine ⟨jm, ?_, hjmp⟩
    rw [hjobs]
    exact hjm

theorem getJob_ok_state {now : Nat} {sid jid : String} {s s' : QState}
    {out : Option PublicJob} (h : getJob now sid jid s = Except.ok (s', out)) :
    s' = cleanupExpiredJobs now s := by
  unfold getJob at h
  by_cases hv : validSession sid = true
  · rw [if_pos hv] at h
    dsimp only at h
    cases hg : jsGet jid (cleanupExpiredJobs now s).jobs with
    | none =>
      rw [hg] at h
      rw [Except.ok.injEq, Prod.mk.injEq] at h
      exact h.1.symm
    | some job =>
      rw [hg] at h
      dsimp only at h
      by_cases hsess : job.sessionId ≠ jsTrim sid
      · rw [if_pos hsess] at h
        rw [Except.ok.injEq, Prod.mk.injEq] at h
        exact h.1.symm
      · rw [if_neg hsess] at h
        rw [Except.ok.injEq, Prod.mk.injEq] at h
        exact h.1.symm
  · rw [if_neg hv] at h
    cases h

theorem download_fst (now : Nat) (sid jid : String) (s : QState) :
    (getJobDownloadData now sid jid s).1 = cleanupExpiredJobs now s ∨
      (getJobDownloadData now sid jid s).1 = s := by
  unfold getJobDownloadData
  by_cases hv : validSession sid = true
  · rw [if_pos hv]
    dsimp only
    cases hg : jsGet jid (cleanupExpiredJobs now s).jobs with
    | none => exact Or.inl rfl
    | some job =>
      dsimp only
      by_cases hsess : job.sessionId ≠ jsTrim sid
      · rw [if_pos hsess]; exact Or.inl rfl
      · rw [if_neg hsess]
        by_cases hst : job.status ≠ Status.completed
        · rw [if_pos hst]; exact Or.inl rfl
        · rw [if_neg hst]
          cases job.zip with
          | none => exact Or.inl rfl
          | some z => exact Or.inl rfl
  · rw [if_neg hv]
    exact Or.inr rfl

/-! ## The reachable-state invariant -/

theorem initState_fullinv : FullInv initState := by
  refine ⟨List.nodup_nil, ?_, ?_, ?_, ?_⟩
  · intro p hp; cases hp
  · intro p hp; cases hp
  · intro p hp; cases hp
  · intro m hm; cases hm

theorem step_fullinv {s s' : QState} (hinv : FullInv s) (hst : QStep s s') :
    FullInv s' := by
  cases hst with
  | create now newId url sid pid rz s s' pj hfresh hok =>
    obtain ⟨pk, _, _, hs', _⟩ := createJob_ok_elim hok
    rw [hs']
    exact pq_fullinv (coreBuild_fullinv hfresh rfl rfl rfl hinv)
  | list now sid s s' out hok => exact listJobs_fullinv hinv hok
  | get now sid jid s s' out hok =>
    rw [getJob_ok_state hok]
    exact cleanup_fullinv hinv
  | download now sid jid s =>
    rcases download_fst now sid jid s with hc | hc
    · rw [hc]; exact cleanup_fullinv hinv
    · rw [hc]; exact hinv
  | wake now s => exact pq_fullinv hinv
  | progress now stage msg p s => exact progress_fullinv hinv
  | settle now res s hbusy => exact settle_fullinv hinv

theorem reachable_fullinv {s : QState} (hr : Reachable s) : FullInv s := by
  induction hr with
  | init => exact initState_fullinv
  | step hr hst ih => exact step_fullinv ih hst

/-! ## Counting lemmas and the evolution of statuses -/

theorem length_le_one_of_all_eq {l : List (String × Job)} {mid : String}
    (hn : (l.map Prod.fst).Nodup) (hall : ∀ p ∈ l, p.1 = mid) : l.length ≤ 1 := by
  cases l with
  | nil => simp
  | cons a t =>
    cases t with
    | nil => simp
    | cons b t2 =>
      exfalso
      rw [List.map_cons, List.map_cons] at hn
      have h1 := hall a (List.mem_cons_self a (b :: t2))
      have h2 := hall b (List.mem_cons_of_mem a (List.mem_cons_self b t2))
      have hn' := List.nodup_cons.mp hn
      refine hn'.1 ?_
      rw [h1, ← h2]
      exact List.mem_cons_self b.1 (t2.map Prod.fst)

theorem countProcessing_le_one {s : QState} (hA : JobsKeysNodup s)
    (hD : ∀ p ∈ s.jobs, (p.2).status = Status.processing → s.processingJob = some p.1) :
    countProcessing s ≤ 1 := by
  unfold countProcessing
  cases hm : s.processingJob with
  | none =>
    have hnil : s.jobs.filter (fun p => decide ((p.2).status = Status.processing)) = [] := by
      rw [List.filter_eq_nil_iff]
      intro p hp hdec
      have hst : (p.2).status = Status.processing := of_decide_eq_true hdec
      have := hD p hp hst
      rw [hm] at this
      cases this
    rw [hnil]
    simp
  | some mid =>
    have hall : ∀ p ∈ s.jobs.filter (fun p => decide ((p.2).status = Status.processing)),
        p.1 = mid := by
      intro p hp
      have hmem := List.mem_of_mem_filter hp
      have hdec := List.of_mem_filter hp
      have hst : (p.2).status = Status.processing := of_decide_eq_true hdec
      have h2 := hD p hmem hst
      rw [hm] at h2
      exact (Option.some.inj h2).symm
    have hsub : (s.jobs.filter
        (fun p => decide ((p.2).status = Status.processing))).Sublist s.jobs :=
      List.filter_sublist s.jobs
    exact length_le_one_of_all_eq (List.Nodup.sublist (hsub.map Prod.fst) hA) hall

/-- One event-loop step moves every individual job's status along the
legal edges only. -/
theorem step_status_evolution {s s' : QState} (hinv : FullInv s) (hst : QStep s s')
    {id : String} {j j' : Job} (h1 : jsGet id s.jobs = some j)
    (h2 : jsGet id s'.jobs = some j') : StatusStepOk j.status j'.status := by
  cases hst with
  | create now newId url sid pid rz s s' pj hfresh hok =>
    obtain ⟨pk, _, _, hs', _⟩ := createJob_ok_elim hok
    have hidn : id ≠ newId := by
      intro hc
      rw [hc, hfresh.1] at h1
      cases h1
    subst hs'
    set job0 := newJobRecord now newId (jsTrim url) (jsTrim sid) pk rz with hjob0
    have hcb : jsGet id (coreBuild now newId (jsTrim sid) job0 s).jobs = some j ∨
        jsGet id (coreBuild now newId (jsTrim sid) job0 s).jobs = none := by
      unfold coreBuild
      dsimp only
      set s1 := cleanupExpiredJobs now s with hs1
      set s2 : QState := ⟨jsSet newId job0 s1.jobs, s1.queue, s1.sessionJobs, s1.processingJob⟩
        with hs2
      set s3 : QState :=
        ⟨s2.jobs, s2.queue,
          jsSet (jsTrim sid) (sessionOrderOf s2 (jsTrim sid) ++ [newId]) s2.sessionJobs,
          s2.processingJob⟩ with hs3
      rcases cleanup_lookup_cases now s id with hcl | hcl
      · have hv3 : jsGet id s3.jobs = some j := by
          rw [hs3]
          show jsGet id s2.jobs = some j
          rw [hs2]
          show jsGet id (jsSet newId job0 s1.jobs) = some j
          rw [jsGet_jsSet_other hidn, hcl, h1]
        rcases trim_lookup_cases (jsTrim sid) s3 id with htr | htr
        · left
          show jsGet id (trimSessionJobs (jsTrim sid) s3).jobs = some j
          rw [htr]
          exact hv3
        · right
          exact htr
      · have hv3 : jsGet id s3.jobs = none := by
          rw [hs3]
          show jsGet id s2.jobs = none
          rw [hs2]
          show jsGet id (jsSet newId job0 s1.jobs) = none
          rw [jsGet_jsSet_other hidn, hcl]
        rcases trim_lookup_cases (jsTrim sid) s3 id with htr | htr
        · right
          show jsGet id (trimSessionJobs (jsTrim sid) s3).jobs = none
          rw [htr]
          exact hv3
        · right
          exact htr
    rcases pq_lookup_cases now (coreBuild now newId (jsTrim sid) job0 s) id with
      hpq | ⟨jq, _, _, hjq, hjqs, hjq2⟩
    · rw [hpq] at h2
      rcases hcb with hcb | hcb
      · rw [hcb] at h2
        have : j = j' := Option.some.inj h2
        exact Or.inl (by rw [this])
      · rw [hcb] at h2
        cases h2
    · rcases hcb with hcb | hcb
      · rw [hcb] at hjq
        have hje : jq = j := (Option.some.inj hjq).symm
        rw [hjq2] at h2
        have hje2 : j' = runJobStart now jq := (Option.some.inj h2).symm
        refine Or.inr (Or.inl ⟨?_, ?_⟩)
        · rw [← hje]
          exact hjqs
        · rw [hje2, runJobStart_status]
      · rw [hcb] at hjq
        cases hjq
  | list now sid s s' out hok =>
    obtain ⟨_, hjobs, _, _, _, _⟩ := listJobs_ok_elim hok
    rw [hjobs] at h2
    rcases cleanup_lookup_cases now s id with hcl | hcl
    · rw [hcl, h1] at h2
      have : j = j' := Option.some.inj h2
      exact Or.inl (by rw [this])
    · rw [hcl] at h2
      cases h2
  | get now sid jid s s' out hok =>
    rw [getJob_ok_state hok] at h2
    rcases cleanup_lookup_cases now s id with hcl | hcl
    · rw [hcl, h1] at h2
      have : j = j' := Option.some.inj h2
      exact Or.inl (by rw [this])
    · rw [hcl] at h2
      cases h2
  | download now sid jid s =>
    rcases download_fst now sid jid s with hc | hc
    · rw [hc] at h2
      rcases cleanup_lookup_cases now s id with hcl | hcl
      · rw [hcl, h1] at h2
        have : j = j' := Option.some.inj h2
        exact Or.inl (by rw [this])
      · rw [hcl] at h2
        cases h2
    · rw [hc] at h2
      rw [h1] at h2
      have : j = j' := Option.some.inj h2
      exact Or.inl (by rw [this])
  | wake now s =>
    rcases pq_lookup_cases now s id with hpq | ⟨jq, _, _, hjq, hjqs, hjq2⟩
    · rw [hpq, h1] at h2
      have : j = j' := Option.some.inj h2
      exact Or.inl (by rw [this])
    · rw [h1] at hjq
      have hje : jq = j := (Option.some.inj hjq).symm
      rw [hjq2] at h2
      have hje2 : j' = runJobStart now jq := (Option.some.inj h2).symm
      refine Or.inr (Or.inl ⟨?_, ?_⟩)
      · rw [← hje]
        exact hjqs
      · rw [hje2, runJobStart_status]
  | progress now stage msg p s =>
    cases hm : s.processingJob with
    | none =>
      rw [progress_of_none hm] at h2
      rw [h1] at h2
      have : j = j' := Option.some.inj h2
      exact Or.inl (by rw [this])
    | some mid =>
      rw [progress_of_some hm] at h2
      have h2' : jsGet id (s.jobs.map
          (fun q => if q.1 = mid then (q.1, progressApply now stage msg p q.2) else q)) =
          some j' := h2
      rw [jsGet_update] at h2'
      by_cases hid2 : id = mid
      · rw [if_pos hid2, h1] at h2'
        have : j' = progressApply now stage msg p j := (Option.some.inj h2').symm
        refine Or.inl ?_
        rw [this, progressApply_status]
      · rw [if_neg hid2, h1] at h2'
        have : j = j' := Option.some.inj h2'
        exact Or.inl (by rw [this])
  | settle now res s hbusy =>
    obtain ⟨mid, hm⟩ := Option.isSome_iff_exists.mp hbusy
    rw [settle_of_some hm] at h2
    have h2' : jsGet id (s.jobs.map
        (fun p => if p.1 = mid then (p.1, settleApply now res p.2) else p)) =
        some j' := h2
    rw [jsGet_update] at h2'
    by_cases hid2 : id = mid
    · rw [if_pos hid2, h1] at h2'
      have hje2 : j' = settleApply now res j := (Option.some.inj h2').symm
      obtain ⟨jm, hjm, hjmp⟩ := hinv.2.2.2.2 mid hm
      have hje : j = jm := by
        rw [hid2] at h1
        rw [h1] at hjm
        exact Option.some.inj hjm
      refine Or.inr (Or.inr ⟨?_, ?_⟩)
      · rw [hje]
        exact hjmp
      · rw [hje2]
        exact settleApply_status now res j
    · rw [if_neg hid2, h1] at h2'
      have : j = j' := Option.some.inj h2'
      exact Or.inl (by rw [this])

/-! ## Reachability of the one-create state -/

theorem oneCreate_ok :
    createJob 0 "job-a" "https://dccon.dcinside.com/hot#123456" "sess-a" (some "123456")
      none initState = Except.ok (oneCreateState, oneCreatePub) := by
  rfl

theorem oneCreate_reachable : Reachable oneCreateState :=
  Reachable.step Reachable.init
    (QStep.create 0 "job-a" "https://dccon.dcinside.com/hot#123456" "sess-a"
      (some "123456") none initState oneCreateState oneCreatePub (by decide) oneCreate_ok)

/-! ## C2 — at most one job is processing -/

/-- C2: in every reachable state of the queue service, at most one
registry entry has status `processing`, and any `processing` entry is
exactly the job the single `processingJob` marker names (the worker
sets the marker when it picks a job up and the settlement clears it
before the next pick). -/
theorem c2_at_most_one_processing {s : QState} (hr : Reachable s) :
    countProcessing s ≤ 1 ∧
    ∀ p ∈ s.jobs, (p.2).status = Status.processing → s.processingJob = some p.1 := by
  obtain ⟨hA, _, _, hD, _⟩ := reachable_fullinv hr
  exact ⟨countProcessing_le_one hA hD, hD⟩

/-- C2 witness: the invariant at a concrete reachable state. -/
theorem c2_at_most_one_processing_witness :
    countProcessing oneCreateState ≤ 1 ∧
    ∀ p ∈ oneCreateState.jobs, (p.2).status = Status.processing →
      oneCreateState.processingJob = some p.1 :=
  c2_at_most_one_processing oneCreate_reachable

/-! ## C4 — statuses move only along the legal edges -/

/-- C4: across every event-loop step from a reachable state, each
job's status either stays, moves `queued → processing` (worker
pick-up), or moves `processing → completed/failed` (settlement):
no step returns a job to `queued`, re-enters `processing`, or changes
a terminal status. -/
theorem c4_status_transitions {s s' : QState} (hr : Reachable s) (hst : QStep s s')
    {id : String} {j j' : Job} (h1 : jsGet id s.jobs = some j)
    (h2 : jsGet id s'.jobs = some j') : StatusStepOk j.status j'.status :=
  step_status_evolution (reachable_fullinv hr) hst h1 h2

/-- C4 witness: a deferred `processQueue` wake-up against the busy
one-create state leaves the stored job unchanged. -/
theorem c4_status_transitions_witness :
    StatusStepOk oneCreateStoredJob.status oneCreateStoredJob.status :=
  @c4_status_transitions oneCreateState (processQueueStep 5 oneCreateState)
    oneCreate_reachable (QStep.wake 5 oneCreateState) "job-a" oneCreateStoredJob
    oneCreateStoredJob (by decide) (by decide)

/-! ## Targeted cleanup lemmas (C5) -/

theorem cleanupStep_lookup_other {now : Nat} {s : QState} {p : String × Job} {id : String}
    (hne : id ≠ p.1) : jsGet id (cleanupStep now s p).jobs = jsGet id s.jobs := by
  rcases cleanupStep_cases now s p with hc | hc
  · rw [hc]
  · rw [hc]
    exact removeJob_lookup_other hne s

theorem foldl_cleanupStep_none {now : Nat} {id : String} :
    ∀ (t : List (String × Job)) (s : QState), jsGet id s.jobs = none →
      jsGet id (t.foldl (cleanupStep now) s).jobs = none := by
  intro t
  refine foldl_inv (fun s' p h => ?_) t
  rcases cleanupStep_cases now s' p with hc | hc
  · rw [hc]; exact h
  · rw [hc]; exact removeJob_lookup_none h

/-- Iterating the cleanup over a snapshot that contains the expired
terminal entry removes it. -/
theorem cleanup_fold_removes {now : Nat} {id : String} {j : Job} :
    ∀ (L : List (String × Job)) (s : QState), (L.map Prod.fst).Nodup →
      (id, j) ∈ L → jsGet id s.jobs = some j →
      (j.status = Status.completed ∨ j.status = Status.failed) →
      j.updatedAt + JOB_TTL_MS < now →
      jsGet id (L.foldl (cleanupStep now) s).jobs = none := by
  intro L
  induction L with
  | nil => intro s _ hmem; cases hmem
  | cons p t ih =>
    intro s hn hmem hlook hterm hexp
    rw [List.map_cons] at hn
    have hn' := List.nodup_cons.mp hn
    rcases List.mem_cons.mp hmem with hc | hc
    · have hp : p = (id, j) := hc.symm
      have hstep : cleanupStep now s p = (removeJob p.1 s).1 := by
        unfold cleanupStep
        rw [if_neg ?hneg, if_pos ?hpos]
        case hneg =>
          rw [hp]
          intro hcontra
          rcases hterm with ht | ht <;> rcases hcontra with hcon | hcon <;>
            rw [ht] at hcon <;> cases hcon
        case hpos =>
          rw [hp]
          exact hexp
      show jsGet id ((p :: t).foldl (cleanupStep now) s).jobs = none
      rw [List.foldl_cons, hstep]
      refine foldl_cleanupStep_none t _ ?_
      have hrm : jsGet id ((removeJob id s).1).jobs = none := by
        have hnp : j.status ≠ Status.processing := by
          rcases hterm with ht | ht <;> rw [ht] <;> intro hcon <;> cases hcon
        rw [removeJob_of_removable hlook hnp]
        show jsGet id (jsDelete id s.jobs) = none
        rw [jsGet_jsDelete, if_pos rfl]
      rw [hp]
      exact hrm
    · have hne : id ≠ p.1 := by
        intro hceq
        refine hn'.1 ?_
        rw [← hceq]
        exact List.mem_map.mpr ⟨(id, j), hc, rfl⟩
      show jsGet id ((p :: t).foldl (cleanupStep now) s).jobs = none
      rw [List.foldl_cons]
      refine ih _ hn'.2 hc ?_ hterm hexp
      rw [cleanupStep_lookup_other hne]
      exact hlook

/-- Iterating the cleanup never touches a `queued`/`processing` job,
however old. -/
theorem cleanup_fold_keeps {now : Nat} {id : String} {j : Job} :
    ∀ (L : List (String × Job)) (s : QState),
      (∀ p ∈ L, p.1 = id → p.2 = j) → jsGet id s.jobs = some j →
      (j.status = Status.queued ∨ j.status = Status.processing) →
      jsGet id (L.foldl (cleanupStep now) s).jobs = some j := by
  intro L
  induction L with
  | nil => intro s _ h _; exact h
  | cons p t ih =>
    intro s hval hlook hqp
    show jsGet id ((p :: t).foldl (cleanupStep now) s).jobs = some j
    rw [List.foldl_cons]
    by_cases hpe : p.1 = id
    · have hpj : p.2 = j := hval p (List.mem_cons_self p t) hpe
      have hstep : cleanupStep now s p = s := by
        unfold cleanupStep
        rw [if_pos ?hcond]
        case hcond =>
          rw [hpj]
          rcases hqp with hq | hq
          · exact Or.inr hq
          · exact Or.inl hq
      rw [hstep]
      exact ih _ (fun q hq hqe => hval q (List.mem_cons_of_mem p hq) hqe) hlook hqp
    · have hne : id ≠ p.1 := fun hc => hpe hc.symm
      refine ih _ (fun q hq hqe => hval q (List.mem_cons_of_mem p hq) hqe) ?_ hqp
      rw [cleanupStep_lookup_other hne]
      exact hlook

theorem removeJob_stored {jid : String} {s : QState} (hB : StoredUnderOwnId s) :
    StoredUnderOwnId ((removeJob jid s).1) := by
  cases hj : jsGet jid s.jobs with
  | none => rw [removeJob_of_none hj]; exact hB
  | some j =>
    by_cases hst : j.status = Status.processing
    · rw [removeJob_of_processing hj hst]; exact hB
    · rw [removeJob_of_removable hj hst]
      intro p hp
      exact hB p (jsDelete_mem hp)

theorem cleanup_stored {now : Nat} {s : QState} (hB : StoredUnderOwnId s) :
    StoredUnderOwnId (cleanupExpiredJobs now s) := by
  unfold cleanupExpiredJobs
  refine foldl_inv (P := StoredUnderOwnId) (fun s' p h => ?_) s.jobs s hB
  rcases cleanupStep_cases now s' p with hc | hc
  · rw [hc]; exact h
  · rw [hc]; exact removeJob_stored h

/-! ## C5 — terminal jobs expire after the TTL, live jobs never do -/

/-- C5: a job whose status is terminal (`completed`/`failed`) and
whose `updatedAt` lies more than `JOB_TTL_MS` (30 minutes) before the
clock is removed by the TTL cleanup — which every queue operation
(`createJob`, `listJobs`, `getJob`, `getJobDownloadData`) runs first —
so it is absent from subsequent `getJob` and `listJobs` answers;
a job in `queued` or `processing` status is never removed by the
cleanup, regardless of its age. -/
theorem c5_ttl_cleanup {s : QState} {now : Nat} {id : String} {j : Job}
    (hA : JobsKeysNodup s) (hB : StoredUnderOwnId s)
    (hlook : jsGet id s.jobs = some j) :
    ((j.status = Status.completed ∨ j.status = Status.failed) →
      j.updatedAt + JOB_TTL_MS < now →
      jsGet id (cleanupExpiredJobs now s).jobs = none ∧
      (∀ sid, validSession sid = true →
        getJob now sid id s = Except.ok (cleanupExpiredJobs now s, none)) ∧
      (∀ sid s' out, listJobs now sid s = Except.ok (s', out) →
        ∀ pj ∈ out, pj.id ≠ id)) ∧
    ((j.status = Status.queued ∨ j.status = Status.processing) →
      jsGet id (cleanupExpiredJobs now s).jobs = some j) := by
  constructor
  · intro hterm hexp
    have hrem : jsGet id (cleanupExpiredJobs now s).jobs = none := by
      unfold cleanupExpiredJobs
      exact cleanup_fold_removes s.jobs s hA (jsGet_mem hlook) hlook hterm hexp
    refine ⟨hrem, ?_, ?_⟩
    · intro sid hsid
      unfold getJob
      rw [if_pos hsid]
      dsimp only
      rw [hrem]
    · intro sid s' out hok pj hpj
      obtain ⟨_, _, _, _, hout, _⟩ := listJobs_ok_elim hok
      obtain ⟨jid2, job2, hjg2, hpj2⟩ := hout pj hpj
      intro hcid
      have hjid2 : job2.id = jid2 :=
        cleanup_stored hB (jid2, job2) (jsGet_mem hjg2)
      have hpid : pj.id = job2.id := by rw [hpj2]; rfl
      rw [hpid, hjid2] at hcid
      rw [hcid] at hjg2
      rw [hrem] at hjg2
      cases hjg2
  · intro hqp
    unfold cleanupExpiredJobs
    refine cleanup_fold_keeps s.jobs s ?_ hlook hqp
    intro p hp hpe
    have : jsGet id s.jobs = some p.2 := by
      have hmem2 : (id, p.2) ∈ s.jobs := by
        rw [← hpe]
        exact hp
      exact jsGet_of_mem_nodup hA hmem2
    rw [hlook] at this
    exact (Option.some.inj this).symm

/-- C5 witness: the theorem at a concrete registry holding one expired
completed job and one equally old queued job. -/
theorem c5_ttl_cleanup_witness :
    jsGet "old-1" (cleanupExpiredJobs expiredNow expiredState).jobs = none ∧
    jsGet "old-2" (cleanupExpiredJobs expiredNow expiredState).jobs = some oldQueuedJob ∧
    getJob expiredNow "sess-a" "old-1" expiredState =
      Except.ok (cleanupExpiredJobs expiredNow expiredState, none) := by
  have h1 := @c5_ttl_cleanup expiredState expiredNow "old-1" expiredDoneJob
    (by decide) (by decide) (by decide)
  have h2 := @c5_ttl_cleanup expiredState expiredNow "old-2" oldQueuedJob
    (by decide) (by decide) (by decide)
  obtain ⟨hrem, hget, _⟩ := h1.1 (Or.inl (by decide)) (by decide)
  exact ⟨hrem, h2.2 (Or.inl (by decide)), hget "sess-a" (by decide)⟩

/-! ## C6 — download access control -/

/-- C6: `getJobDownloadData` (with a valid session string) first runs
the TTL cleanup and leaves no other trace on the registry; it answers
the SAME 404 `notFoundError` value both when the job does not exist
and when it belongs to another session (the two cases are
observationally indistinguishable); it answers the 409
`notReadyError` — and returns no bytes — when the job is owned but
not `completed` or has no zip; and otherwise it returns exactly the
job's zip payload. -/
theorem c6_download_access_control (now : Nat) (sid jid : String) (s : QState)
    (hv : validSession sid = true) :
    (getJobDownloadData now sid jid s).1 = cleanupExpiredJobs now s ∧
    (jsGet jid (cleanupExpiredJobs now s).jobs = none →
      (getJobDownloadData now sid jid s).2 = Except.error notFoundError) ∧
    (∀ job, jsGet jid (cleanupExpiredJobs now s).jobs = some job →
      job.sessionId ≠ jsTrim sid →
      (getJobDownloadData now sid jid s).2 = Except.error notFoundError) ∧
    (∀ job, jsGet jid (cleanupExpiredJobs now s).jobs = some job →
      job.sessionId = jsTrim sid → job.status ≠ Status.completed →
      (getJobDownloadData now sid jid s).2 = Except.error notReadyError) ∧
    (∀ job, jsGet jid (cleanupExpiredJobs now s).jobs = some job →
      job.sessionId = jsTrim sid → job.zip = none →
      (getJobDownloadData now sid jid s).2 = Except.error notReadyError) ∧
    (∀ job z, jsGet jid (cleanupExpiredJobs now s).jobs = some job →
      job.sessionId = jsTrim sid → job.status = Status.completed → job.zip = some z →
      (getJobDownloadData now sid jid s).2 = Except.ok z) := by
  unfold getJobDownloadData
  rw [if_pos hv]
  dsimp only
  cases hg : jsGet jid (cleanupExpiredJobs now s).jobs with
  | none =>
    refine ⟨rfl, fun _ => rfl, ?_, ?_, ?_, ?_⟩
    · intro job hj
      cases hj
    · intro job hj
      cases hj
    · intro job hj
      cases hj
    · intro job z hj
      cases hj
  | some job =>
    dsimp only
    refine ⟨?_, ?_, ?_, ?_, ?_, ?_⟩
    · by_cases hsess : job.sessionId ≠ jsTrim sid
      · rw [if_pos hsess]
      · rw [if_neg hsess]
        by_cases hst : job.status ≠ Status.completed
        · rw [if_pos hst]
        · rw [if_neg hst]
          cases job.zip with
          | none => rfl
          | some z => rfl
    · intro hcontra
      cases hcontra
    · intro job2 hj2 hsess
      have : job2 = job := Option.some.inj hj2.symm
      subst this
      rw [if_pos hsess]
    · intro job2 hj2 hsess hst
      have : job2 = job := Option.some.inj hj2.symm
      subst this
      rw [if_neg (by rw [hsess]; exact fun hc => hc rfl), if_pos hst]
    · intro job2 hj2 hsess hzip
      have : job2 = job := Option.some.inj hj2.symm
      subst this
      rw [if_neg (by rw [hsess]; exact fun hc => hc rfl)]
      by_cases hst : job2.status ≠ Status.completed
      · rw [if_pos hst]
      · rw [if_neg hst, hzip]
    · intro job2 z hj2 hsess hst hzip
      have : job2 = job := Option.some.inj hj2.symm
      subst this
      rw [if_neg (by rw [hsess]; exact fun hc => hc rfl),
        if_neg (by rw [hst]; exact fun hc => hc rfl), hzip]

/-- C6 witness: the theorem at a concrete state — a missing job is a
404 and the state effect is exactly the cleanup. -/
theorem c6_download_access_control_witness :
    validSession "sess-a" = true ∧
    (getJobDownloadData 0 "sess-a" "nope" initState).1 = cleanupExpiredJobs 0 initState ∧
    (getJobDownloadData 0 "sess-a" "nope" initState).2 = Except.error notFoundError := by
  have h := c6_download_access_control 0 "sess-a" "nope" initState (by decide)
  exact ⟨by decide, h.1, h.2.1 (by decide)⟩

/-! ## createJobCore decomposition (C1, C3) -/

theorem createJobCore_ok_elim {now : Nat} {newId url sid : String} {pid : Option String}
    {rz : Option JsNum} {s s5 : QState} {job : Job}
    (h : createJobCore now newId url sid pid rz s = Except.ok (s5, job)) :
    ∃ pk, pid = some pk ∧ validSession sid = true ∧
      job = newJobRecord now newId (jsTrim url) (jsTrim sid) pk rz ∧
      s5 = coreBuild now newId (jsTrim sid) job s := by
  unfold createJobCore at h
  by_cases hv : validSession sid = true
  · rw [if_pos hv] at h
    cases pid with
    | none => dsimp only at h; cases h
    | some pk =>
      dsimp only at h
      rw [Except.ok.injEq, Prod.mk.injEq] at h
      refine ⟨pk, rfl, hv, h.2.symm, ?_⟩
      rw [← h.2, ← h.1]
  · rw [if_neg hv] at h
    cases h

theorem createJob_of_core {now : Nat} {newId url sid : String} {pid : Option String}
    {rz : Option JsNum} {s s5 : QState} {job : Job}
    (hcore : createJobCore now newId url sid pid rz s = Except.ok (s5, job)) :
    createJob now newId url sid pid rz s =
      Except.ok (processQueueStep now s5,
        toPublicJob ((jsGet newId (processQueueStep now s5).jobs).getD job)) := by
  unfold createJob
  rw [hcore]

theorem cleanup_sc {now : Nat} {s : QState} (hsc : SessionConsistent s) :
    SessionConsistent (cleanupExpiredJobs now s) := by
  unfold cleanupExpiredJobs
  refine foldl_inv (P := SessionConsistent) (fun s' p h => ?_) s.jobs s hsc
  rcases cleanupStep_cases now s' p with hc | hc
  · rw [hc]; exact h
  · rw [hc]; exact removeJob_sc h

/-! ## C1 — what createJob returns -/

/-- C1 (counterexample): against the freshly loaded module (idle
worker, empty pending queue) `createJob` answers a projection whose
status is already `processing` with progress `0.01` — not `queued`
with progress `0` — because `processQueue()` runs the synchronous
prefix of the async `runJob` before `createJob` returns. -/
theorem c1_counterexample :
    oneCreateObs = some (Status.processing, (⟨1, 100⟩ : JsNum)) ∧
    some (Status.processing, (⟨1, 100⟩ : JsNum)) ≠
      some (Status.queued, (0 : JsNum)) := by
  constructor
  · rfl
  · decide

/-- C1 (amended): a successful `createJob` registers the job with
status `queued` and progress `0` and returns without waiting for the
download to run; the projection it answers with still shows `queued`
and progress `0` whenever the worker is busy or another queued job is
ahead in the queue, but when the worker is idle and the new job is
first, `processQueue` synchronously starts it and the answer already
shows `processing` with progress `0.01`. -/
theorem c1_create_returns (now : Nat) (newId url sid : String) (pid : Option String)
    (rz : Option JsNum) (s s5 : QState) (job : Job) (s' : QState) (pj : PublicJob)
    (hfresh : FreshId newId s)
    (hcore : createJobCore now newId url sid pid rz s = Except.ok (s5, job))
    (hok : createJob now newId url sid pid rz s = Except.ok (s', pj)) :
    job.status = Status.queued ∧ job.progress = 0 ∧
    ((s5.processingJob = none ∧ s5.queue.head? = some newId) →
      pj.status = Status.processing ∧ pj.progress = ⟨1, 100⟩) ∧
    ((s5.processingJob ≠ none ∨ s5.queue.head? ≠ some newId) →
      pj.status = Status.queued ∧ pj.progress = 0) := by
  obtain ⟨pk, hpid, hv, hjob, hs5⟩ := createJobCore_ok_elim hcore
  subst hjob
  have hcj := createJob_of_core hcore
  rw [hok] at hcj
  rw [Except.ok.injEq, Prod.mk.injEq] at hcj
  obtain ⟨hspq, hpj⟩ := hcj
  have hlookup : jsGet newId s5.jobs =
      some (newJobRecord now newId (jsTrim url) (jsTrim sid) pk rz) := by
    rw [hs5]
    exact (coreBuild_lookup_newid hfresh).1
  refine ⟨rfl, rfl, ?_, ?_⟩
  · rintro ⟨hmn, hhead⟩
    obtain ⟨rest, hq⟩ : ∃ rest, s5.queue = newId :: rest := by
      cases hqq : s5.queue with
      | nil => rw [hqq] at hhead; cases hhead
      | cons a t =>
        rw [hqq] at hhead
        have : a = newId := Option.some.inj hhead
        exact ⟨t, by rw [this]⟩
    have hpick := @pq_pick now s5 newId rest _ (by simp [hmn]) hq hlookup rfl
    rw [hpick] at hpj
    have hupd : jsGet newId
        (s5.jobs.map (fun p => if p.1 = newId then (p.1, runJobStart now p.2) else p)) =
        some (runJobStart now (newJobRecord now newId (jsTrim url) (jsTrim sid) pk rz)) := by
      rw [jsGet_update, if_pos rfl, hlookup]
      rfl
    rw [hpj]
    show (toPublicJob ((jsGet newId (⟨s5.jobs.map
        (fun p => if p.1 = newId then (p.1, runJobStart now p.2) else p),
        rest, s5.sessionJobs, some newId⟩ : QState).jobs).getD _)).status = Status.processing ∧
      (toPublicJob ((jsGet newId (⟨s5.jobs.map
        (fun p => if p.1 = newId then (p.1, runJobStart now p.2) else p),
        rest, s5.sessionJobs, some newId⟩ : QState).jobs).getD _)).progress = ⟨1, 100⟩
    rw [show (⟨s5.jobs.map
        (fun p => if p.1 = newId then (p.1, runJobStart now p.2) else p),
        rest, s5.sessionJobs, some newId⟩ : QState).jobs = s5.jobs.map
        (fun p => if p.1 = newId then (p.1, runJobStart now p.2) else p) from rfl, hupd]
    exact ⟨rfl, rfl⟩
  · intro hcase
    have hfinal : jsGet newId (processQueueStep now s5).jobs =
        some (newJobRecord now newId (jsTrim url) (jsTrim sid) pk rz) := by
      rcases pq_lookup_cases now s5 newId with hsame | ⟨jq, hmn0, hhd, _, _, _⟩
      · rw [hsame]
        exact hlookup
      · exfalso
        rcases hcase with hcm | hch
        · exact hcm hmn0
        · exact hch hhd
    rw [hpj, hfinal]
    exact ⟨rfl, rfl⟩

/-- C1 witness: the amended theorem at the concrete one-create run —
the idle-worker branch fires. -/
theorem c1_create_returns_witness :
    oneCreatePub.status = Status.processing ∧ oneCreatePub.progress = ⟨1, 100⟩ := by
  have h := c1_create_returns 0 "job-a" "https://dccon.dcinside.com/hot#123456" "sess-a"
    (some "123456") none initState oneCreateCoreState oneCreateCoreJob oneCreateState
    oneCreatePub (by decide) (by rfl) oneCreate_ok
  exact h.2.2.1 (by decide)

/-! ## C3 — the per-session cap and its processing-head exception -/

/-- C3 (counterexample): sixteen submissions by one session while the
first job is still `processing` leave SIXTEEN retained jobs — the
sixteenth `createJob` returns with the cap exceeded, because
`trimSessionJobs` stops (rather than skipping to a younger job) when
the session's oldest job is the processing one. -/
theorem c3_counterexample :
    sixteenthCreateCount = some 16 ∧ ¬ (16 ≤ MAX_STORED_JOBS_PER_SESSION) := by
  constructor
  · rfl
  · decide

/-- C3 (amended): after a successful `createJob`, the session retains
at most 15 jobs UNLESS the trim was blocked: eviction repeatedly
removes the session's oldest job and stops at the first irremovable
one, so when the loop ends either the cap holds or the session's
oldest retained job is missing from the registry or currently
`processing` (in which case the cap may be exceeded — no younger job
is evicted in its place); moreover the surviving order is always a
tail of the pre-trim order (oldest evicted first, newest job kept). -/
theorem c3_session_cap (now : Nat) (newId url sid : String) (pid : Option String)
    (rz : Option JsNum) (s s' : QState) (pj : PublicJob)
    (hsc : SessionConsistent s) (hfresh : FreshId newId s)
    (hok : createJob now newId url sid pid rz s = Except.ok (s', pj)) :
    ((sessionOrderOf s' (jsTrim sid)).length ≤ MAX_STORED_JOBS_PER_SESSION ∨
      ∃ h t, sessionOrderOf s' (jsTrim sid) = h :: t ∧
        (jsGet h s'.jobs = none ∨
         ∃ jh, jsGet h s'.jobs = some jh ∧ jh.status = Status.processing)) ∧
    (∃ k, sessionOrderOf s' (jsTrim sid) =
      (sessionOrderOf (cleanupExpiredJobs now s) (jsTrim sid) ++ [newId]).drop k) := by
  obtain ⟨pk, hpid, hv, hs', hpj⟩ := createJob_ok_elim hok
  obtain ⟨hf1, hf2, hf3⟩ := hfresh
  set vsid := jsTrim sid with hvsid
  set job0 := newJobRecord now newId (jsTrim url) vsid pk rz with hjob0
  set s1 := cleanupExpiredJobs now s with hs1
  have hsc1 : SessionConsistent s1 := cleanup_sc hsc
  have hfr1 : jsGet newId s1.jobs = none := cleanup_lookup_none hf1
  have hord1 : ∀ p ∈ s1.sessionJobs, newId ∉ p.2 := cleanup_orders_notmem hf2
  set s2 : QState := ⟨jsSet newId job0 s1.jobs, s1.queue, s1.sessionJobs, s1.processingJob⟩
    with hs2
  have hsc2 : SessionConsistent s2 := by
    intro p hp id hid jj hjj
    by_cases hidn : id = newId
    · exfalso
      rw [hidn] at hid
      exact hord1 p hp hid
    · have hjj1 : jsGet id s1.jobs = some jj := by
        have := hjj
        rw [hs2] at this
        rw [← jsGet_jsSet_other hidn job0 s1.jobs]
        exact this
      exact hsc1 p hp id hid jj hjj1
  set s3 : QState :=
    ⟨s2.jobs, s2.queue, jsSet vsid (sessionOrderOf s2 vsid ++ [newId]) s2.sessionJobs,
      s2.processingJob⟩ with hs3
  have hsc3 : SessionConsistent s3 := by
    intro p hp id hid jj hjj
    have hjj2 : jsGet id s2.jobs = some jj := hjj
    rcases jsSet_mem_elim hp with hc | hc
    · rw [hc]
      show jj.sessionId = vsid
      rcases List.mem_append.mp (by rw [hc] at hid; exact hid) with hidL | hidR
      · unfold sessionOrderOf at hidL
        cases hg : jsGet vsid s2.sessionJobs with
        | none => rw [hg] at hidL; cases hidL
        | some ow =>
          rw [hg] at hidL
          exact hsc2 (vsid, ow) (jsGet_mem hg) id hidL jj hjj2
      · have hidn : id = newId := List.mem_singleton.mp hidR
        have hself : jsGet newId s2.jobs = some job0 := by
          rw [hs2]
          exact jsGet_jsSet_self newId job0 s1.jobs
        rw [hidn, hself] at hjj2
        have : jj = job0 := Option.some.inj hjj2.symm
        rw [this, hjob0]
        rfl
    · exact hsc2 p hc id hid jj hjj2
  have hord3 : sessionOrderOf s3 vsid = sessionOrderOf s1 vsid ++ [newId] := by
    unfold sessionOrderOf
    rw [hs3]
    show (jsGet vsid (jsSet vsid (sessionOrderOf s2 vsid ++ [newId]) s2.sessionJobs)).getD []
      = (jsGet vsid s1.sessionJobs).getD []  ++ [newId]
    rw [jsGet_jsSet_self]
    rfl
  have hlen := trimLoop_len vsid (sessionOrderOf s3 vsid).length s3 hsc3 (Nat.le_refl _)
  obtain ⟨k, hdrop⟩ := trim_order_drop vsid (sessionOrderOf s3 vsid).length s3
  have htrim_eq : trimLoop vsid (sessionOrderOf s3 vsid).length s3 =
      trimSessionJobs vsid s3 := rfl
  rw [htrim_eq] at hlen hdrop
  set s4 := trimSessionJobs vsid s3 with hs4
  -- the final state's session orders and jobs relate to s4
  have hsj : s'.sessionJobs = s4.sessionJobs := by
    rw [hs']
    rw [pq_sessionJobs]
    rfl
  have hordfin : sessionOrderOf s' vsid = sessionOrderOf s4 vsid := by
    unfold sessionOrderOf
    rw [hsj]
  constructor
  · rcases hlen with hcap | ⟨h, t, hht, hblocked⟩
    · left
      rw [hordfin]
      exact hcap
    · right
      refine ⟨h, t, by rw [hordfin]; exact hht, ?_⟩
      have hjobs5 : jsGet h (coreBuild now newId vsid job0 s).jobs = jsGet h s4.jobs := rfl
      rcases hblocked with hnone | ⟨jh, hsome, hproc⟩
      · left
        rw [hs']
        rcases pq_lookup_cases now (coreBuild now newId vsid job0 s) h with
          hsame | ⟨jq, _, _, hjq, _, _⟩
        · rw [hsame, hjobs5]
          exact hnone
        · rw [hjobs5, hnone] at hjq
          cases hjq
      · right
        refine ⟨jh, ?_, hproc⟩
        rw [hs']
        rcases pq_lookup_cases now (coreBuild now newId vsid job0 s) h with
          hsame | ⟨jq, _, _, hjq, hjqs, _⟩
        · rw [hsame, hjobs5]
          exact hsome
        · exfalso
          rw [hjobs5, hsome] at hjq
          have : jq = jh := Option.some.inj hjq.symm
          rw [this, hproc] at hjqs
          cases hjqs
  · refine ⟨k, ?_⟩
    rw [hordfin, hdrop, hord3]

/-- C3 witness: the amended theorem at the concrete one-create run. -/
theorem c3_session_cap_witness :
    ((sessionOrderOf oneCreateState (jsTrim "sess-a")).length ≤
        MAX_STORED_JOBS_PER_SESSION ∨
      ∃ h t, sessionOrderOf oneCreateState (jsTrim "sess-a") = h :: t ∧
        (jsGet h oneCreateState.jobs = none ∨
         ∃ jh, jsGet h oneCreateState.jobs = some jh ∧
           jh.status = Status.processing)) ∧
    (∃ k, sessionOrderOf oneCreateState (jsTrim "sess-a") =
      (sessionOrderOf (cleanupExpiredJobs 0 initState) (jsTrim "sess-a") ++
        ["job-a"]).drop k) :=
  c3_session_cap 0 "job-a" "https://dccon.dcinside.com/hot#123456" "sess-a"
    (some "123456") none initState oneCreateState oneCreatePub (by decide) (by decide)
    oneCreate_ok

/-! ## C7 — the numeric fallback of extractPackageId -/

/-- C7 (counterexample): on `"111 222"` — an input on which the
key=value regex finds nothing and URL resolution throws (the
would-be host contains a space) — the fallback returns the FIRST bare
run `"111"`, not the last one `"222"` the claim (and spec) promise. -/
theorem c7_counterexample :
    queryScanGo (jsTrim "111 222").data = none ∧
    extractPackageIdNoUrl "111 222" = some "111" ∧
    specLastBareRun (jsTrim "111 222") = some "222" ∧
    ("111" : String) ≠ "222" := by
  decide

/-- C7 (amended): on every input on which the key=value step fails
(and the URL step throws), the fallback returns the match of the
backtracking regex `([0-9]{3,})(?![a-zA-Z])` at the FIRST (leftmost)
position admitting one — a run of at least 3 digits there, shortened
by one digit when the full run is directly followed by an ASCII
letter — and `none` when no position matches; in particular
`extractPackageId("no digits here")` is `none`. -/
theorem c7_fallback_returns_first_match (s : String)
    (hq : queryScanGo (jsTrim s).data = none) :
    extractPackageIdNoUrl s = (specFirstMatch (jsTrim s).data).map String.mk ∧
    extractPackageIdNoUrl "no digits here" = none := by
  refine ⟨?_, by decide⟩
  unfold extractPackageIdNoUrl
  by_cases h0 : s = ""
  · subst h0; decide
  · rw [if_neg h0]
    by_cases ht : jsTrim s = ""
    · rw [if_pos ht, ht]
      decide
    · rw [if_neg ht, hq, fallbackScan_eq_specFirstMatch]
      cases (specFirstMatch (jsTrim s).data) with
      | none => rfl
      | some ds => rfl

/-- C7 witness: the amended theorem applied to a concrete input. -/
theorem c7_fallback_returns_first_match_witness :
    queryScanGo (jsTrim "only 123456 here").data = none ∧
    extractPackageIdNoUrl "only 123456 here" =
      (specFirstMatch (jsTrim "only 123456 here").data).map String.mk := by
  refine ⟨by decide, (c7_fallback_returns_first_match "only 123456 here" (by decide)).1⟩

/-! ## C8 — formatBytes -/

/-- C8 (counterexample): `formatBytes(1536)` scales to `1.5`, which is
below 10 and not exact, so the source renders it with
`toFixed(2)` — the result is `"1.50 KB"`, not the `"1.5 KB"` the
claim promises. -/
theorem c8_counterexample :
    formatBytes 1536 = "1.50 KB" ∧ "1.50 KB" ≠ "1.5 KB" := by
  decide

/-- C8 (amended): `formatBytes` scales by factors of 1024 across
B/KB/MB/GB — the scaled value is exactly `n / 1024^u` with `u ≤ 3`
chosen minimal (`n < 1024^(u+1)` unless the GB cap is hit) — and
renders the scaled value bare when exact, with ONE decimal place when
it is at least 10, and with TWO decimal places otherwise;
`formatBytes 1536 = "1.50 KB"` and `formatBytes 0 = "0 B"`. -/
theorem c8_formatBytes_scaling (n : Nat) :
    (scaleBytes n).1.num = (n : Int) ∧
    (scaleBytes n).1.den = 1024 ^ (scaleBytes n).2 ∧
    (scaleBytes n).2 ≤ 3 ∧
    (n < 1024 ^ ((scaleBytes n).2 + 1) ∨ (scaleBytes n).2 = 3) ∧
    formatBytes 1536 = "1.50 KB" ∧
    formatBytes 0 = "0 B" ∧
    formatBytes 10752 = "10.5 KB" ∧
    formatBytes 1024 = "1 KB" := by
  obtain ⟨h1, h2, _, h4, h5⟩ := scaleGo_spec 3 ⟨(n : Int), 1⟩ 0
  have hnum : (scaleBytes n).1.num = (n : Int) := h1
  have hden : (scaleBytes n).1.den = 1024 ^ (scaleBytes n).2 := by
    simpa [scaleBytes] using h2
  refine ⟨hnum, hden, by simpa [scaleBytes] using h4, ?_, by decide, by decide, by decide,
    by decide⟩
  cases h5 with
  | inl h =>
    left
    have e1 : JsNum.num 1024 = 1024 := rfl
    have e2 : JsNum.den 1024 = 1 := rfl
    have hlt : ¬ ((1024 : Int) * ((scaleBytes n).1.den : Int) ≤
        (scaleBytes n).1.num * 1) := by
      simpa [JsNum.jsLe, scaleBytes, e1, e2] using h
    rw [hnum, hden] at hlt
    have : (n : Int) < 1024 * (1024 : Nat) ^ (scaleBytes n).2 := by omega
    have hcast : ((1024 ^ ((scaleBytes n).2 + 1) : Nat) : Int) =
        1024 * ((1024 : Nat) ^ (scaleBytes n).2 : Nat) := by
      push_cast [pow_succ]
      ring
    have : (n : Int) < ((1024 ^ ((scaleBytes n).2 + 1) : Nat) : Int) := by omega
    exact_mod_cast this
  | inr h =>
    right
    simpa [scaleBytes] using h

/-! ## C9 — buildArchiveFilename -/

theorem sanitizeFilename_ne_empty (name fallback : String) (h : fallback ≠ "") :
    sanitizeFilename name fallback ≠ "" := by
  unfold sanitizeFilename
  split
  · exact h
  · dsimp only
    split
    · exact h
    · assumption

/-- C9 (counterexample): with an empty (falsy) title the source's
`sanitizeFilename(title)` call returns its DEFAULT fallback
`"untitled"` — which is truthy, so the later `|| 'dccon'` never fires
and the base is `"untitled"`, not `"dccon"`. -/
theorem c9_counterexample :
    buildArchiveFilename "" "42" = "untitled_42.zip" ∧
    "untitled_42.zip" ≠ "dccon_42.zip" := by
  decide

/-- C9 (amended): `buildArchiveFilename(title, packageId)` is
`sanitizeFilename(title, "untitled")` (hostile characters replaced by
spaces, whitespace collapsed and trimmed, empty or falsy input giving
`"untitled"`), then `"_" + packageId` when the package id is nonempty,
then `".zip"`; the `"dccon"` alternative of the source is dead code
because the sanitizer never returns an empty string.
`buildArchiveFilename("My:Pack*", "42") = "My Pack_42.zip"`. -/
theorem c9_archive_filename_shape :
    (∀ title pid, buildArchiveFilename title pid =
      sanitizeFilename title "untitled" ++ (if pid = "" then "" else "_" ++ pid) ++ ".zip") ∧
    buildArchiveFilename "My:Pack*" "42" = "My Pack_42.zip" ∧
    buildArchiveFilename "" "42" = "untitled_42.zip" := by
  refine ⟨?_, by decide, by decide⟩
  intro title pid
  unfold buildArchiveFilename
  dsimp only
  rw [if_neg (sanitizeFilename_ne_empty title "untitled" (by decide))]

/-! ## C10 — the public projection leaks no session id and no raw bytes -/

/-- C10: `toPublicJob` reads no `sessionId` (so two jobs identical
except for their session produce identical projections — and the
`PublicJob` type has no session field at all); item buffers surface
only as base64 `data:` URIs, absent whenever the buffer or the MIME
type is missing (or the MIME string empty, which is falsy); and the
zip archive surfaces only as filename/size metadata. -/
theorem c10_projection_independent_of_session :
    (∀ (j : Job) (sid : String), toPublicJob { j with sessionId := sid } = toPublicJob j) ∧
    (∀ (it : Item) (b : List Nat) (m : String), it.buffer = some b → it.mimeType = some m →
      m ≠ "" → (summariseItem it).dataUrl =
        some ("data:" ++ m ++ ";base64," ++ base64EncodeStr b)) ∧
    (∀ it : Item, it.buffer = none → (summariseItem it).dataUrl = none) ∧
    (∀ it : Item, it.mimeType = none → (summariseItem it).dataUrl = none) ∧
    (∀ items : List Item, summariseItems items = items.map summariseItem) ∧
    (∀ j : Job, (toPublicJob j).archive =
      j.zip.map fun z => ⟨z.filename, z.size, formatBytes z.size⟩) := by
  refine ⟨fun j sid => rfl, ?_, ?_, ?_, fun items => rfl, fun j => rfl⟩
  · intro it b m hb hm hne
    simp [summariseItem, hb, hm, hne]
  · intro it hb
    simp [summariseItem, hb]
  · intro it hm
    cases hb : it.buffer with
    | none => simp [summariseItem, hb]
    | some b => simp [summariseItem, hb, hm]

/-- C10 witness: the projection theorem applied at concrete items. -/
theorem c10_projection_independent_of_session_witness :
    (summariseItem sampleItemFull).dataUrl =
      some ("data:" ++ "image/png" ++ ";base64," ++ base64EncodeStr [1, 2, 3]) ∧
    (summariseItem sampleItemNoBuffer).dataUrl = none := by
  refine ⟨c10_projection_independent_of_session.2.1 sampleItemFull [1, 2, 3] "image/png"
    rfl rfl (by decide),
    c10_projection_independent_of_session.2.2.1 sampleItemNoBuffer rfl⟩

end DcconExporter
